import Mathlib

/-!
# Verification of the Keystone deterministic decimal kernel

A shallow embedding of the `precision-core` decimal type and the
`financial-calc` layer built on it, together with proofs settling the
frozen claims about the specification.

The `Decimal` wrapper type of `precision-core` stores a signed 96-bit
mantissa and a decimal scale in `[0, 28]`; its semantic value is
`mantissa * 10^(-scale)`.  We embed it as an integer mantissa plus a
natural-number scale, with well-formedness (`Dec.wf`) carrying the
96-bit mantissa bound and the scale cap.  The checked arithmetic and
rounding of the underlying decimal representation follow §4.1 of the
specification (result scale `max` for add/sub, `s₁+s₂` capped at 28
with half-even rounding for mul, most-precise-fit half-even division),
which documents the semantics the wrapper relies on.
-/

set_option maxRecDepth 16000

deriving instance DecidableEq for Except

namespace Keystone

/-- Mantissa magnitude bound: the mantissa is a 96-bit unsigned integer. -/
def mantissaBound : ℕ := 2 ^ 96

/-- The embedded decimal: signed mantissa and scale.
Semantic value is `man * 10^(-scale)`. -/
structure Dec where
  man : ℤ
  scale : ℕ
deriving DecidableEq

namespace Dec

/-- Semantic (rational) value of a decimal. -/
def val (d : Dec) : ℚ := (d.man : ℚ) / (10 : ℚ) ^ d.scale

/-- Well-formedness: mantissa magnitude fits 96 bits, scale at most 28. -/
def wf (d : Dec) : Prop := d.man.natAbs < mantissaBound ∧ d.scale ≤ 28

instance (d : Dec) : Decidable d.wf := by unfold wf; infer_instance

/-- Zero (`Decimal::ZERO`). -/
def zero : Dec := ⟨0, 0⟩

/-- One (`Decimal::ONE`). -/
def one : Dec := ⟨1, 0⟩

/-- Negative one (`Decimal::NEGATIVE_ONE`). -/
def negOne : Dec := ⟨-1, 0⟩

/-- Maximum representable value (`Decimal::MAX`), mantissa `2^96 - 1`, scale 0. -/
def maxDec : Dec := ⟨(2 : ℤ) ^ 96 - 1, 0⟩

/-- `Decimal::from(n)` for integers. -/
def ofInt (n : ℤ) : Dec := ⟨n, 0⟩

/-- Numeric comparison (`Ord for Decimal` compares rational values):
`a < b` as a Boolean, via cross-multiplied mantissas. -/
def blt (a b : Dec) : Bool := a.man * (10 : ℤ) ^ b.scale < b.man * (10 : ℤ) ^ a.scale

/-- Numeric `a ≤ b` as a Boolean. -/
def ble (a b : Dec) : Bool := a.man * (10 : ℤ) ^ b.scale ≤ b.man * (10 : ℤ) ^ a.scale

/-- Numeric equality (`PartialEq for rust_decimal::Decimal` compares values,
so `1.0 == 1.00`). -/
def beq (a b : Dec) : Bool := a.man * (10 : ℤ) ^ b.scale == b.man * (10 : ℤ) ^ a.scale

/-- `Decimal::is_zero`. -/
def is_zero (d : Dec) : Bool := d.man == 0

/-- `Decimal::is_negative` (sign is negative; the embedding has no negative zero). -/
def is_negative (d : Dec) : Bool := d.man < 0

/-- `Decimal::is_positive` (positive sign and nonzero). -/
def is_positive (d : Dec) : Bool := 0 < d.man

/-- Negation. -/
def neg (d : Dec) : Dec := ⟨-d.man, d.scale⟩

/-- `Decimal::abs`. -/
def abs (d : Dec) : Dec := ⟨|d.man|, d.scale⟩

/-- `Decimal::min`: `if self <= other { self } else { other }`. -/
def dmin (a b : Dec) : Dec := if ble a b then a else b

/-- `Decimal::max`: `if self >= other { self } else { other }`. -/
def dmax (a b : Dec) : Dec := if ble b a then a else b

end Dec

/-- The seven rounding modes of `precision-core`'s `RoundingMode`. -/
inductive RoundingMode where
  /-- Round toward negative infinity. -/
  | down
  /-- Round toward positive infinity. -/
  | up
  /-- Round toward zero (truncate). -/
  | towardZero
  /-- Round away from zero. -/
  | awayFromZero
  /-- Round to nearest, ties to even. -/
  | halfEven
  /-- Round to nearest, ties away from zero. -/
  | halfUp
  /-- Round to nearest, ties toward zero. -/
  | halfDown
deriving DecidableEq

namespace Dec

/-- Rounded magnitude of `a / p` for a value of sign `neg`, per rounding
mode, where `a` is the magnitude of the mantissa and `p = 10^k > 0`. -/
def roundMag (neg : Bool) (a p : ℕ) (mode : RoundingMode) : ℕ :=
  let q := a / p
  let r := a % p
  match mode with
  | .towardZero => q
  | .awayFromZero => if r = 0 then q else q + 1
  | .down => if neg then (if r = 0 then q else q + 1) else q
  | .up => if neg then q else (if r = 0 then q else q + 1)
  | .halfEven =>
      if 2 * r < p then q else if p < 2 * r then q + 1
      else if q % 2 = 0 then q else q + 1
  | .halfUp => if 2 * r < p then q else q + 1
  | .halfDown => if 2 * r ≤ p then q else q + 1

/-- Round the signed mantissa `m`, dividing by `10^k`, per rounding mode. -/
def roundAtPow (m : ℤ) (k : ℕ) (mode : RoundingMode) : ℤ :=
  let mag := roundMag (m < 0) m.natAbs (10 ^ k) mode
  if m < 0 then -(mag : ℤ) else (mag : ℤ)

/-- `Decimal::round(dp, mode)` (via `round_dp_with_strategy`): unchanged when
`dp ≥ scale`, otherwise the mantissa is rounded to scale `dp` per the mode. -/
def round (d : Dec) (dp : ℕ) (mode : RoundingMode) : Dec :=
  if d.scale ≤ dp then d
  else ⟨roundAtPow d.man (d.scale - dp) mode, dp⟩

/-- `Decimal::round_dp`: banker's rounding. -/
def round_dp (d : Dec) (dp : ℕ) : Dec := d.round dp .halfEven

/-- `Decimal::trunc(dp)`. -/
def trunc (d : Dec) (dp : ℕ) : Dec := d.round dp .towardZero

/-- `Decimal::floor`. -/
def floor (d : Dec) : Dec := d.round 0 .down

/-- `Decimal::ceil`. -/
def ceil (d : Dec) : Dec := d.round 0 .up

/-- Helper for `normalize`: strip trailing zeros, recursing on the scale. -/
def normalizeAux (m : ℤ) : ℕ → ℤ × ℕ
  | 0 => (m, 0)
  | s + 1 => if m % 10 = 0 then normalizeAux (m / 10) s else (m, s + 1)

/-- `Decimal::normalize`: strip trailing zeros from the mantissa. -/
def normalize (d : Dec) : Dec :=
  ⟨(normalizeAux d.man d.scale).1, (normalizeAux d.man d.scale).2⟩

/-- Reduce the scale one digit at a time (rounding half-even) until the
mantissa fits 96 bits; `none` when even scale 0 does not fit.  This is the
underlying library's fit-to-96-bits loop, which sacrifices fractional
digits before reporting overflow. -/
def mulFit (m : ℤ) : ℕ → Option Dec
  | 0 => if m.natAbs < mantissaBound then some ⟨m, 0⟩ else none
  | s + 1 =>
      if m.natAbs < mantissaBound then some ⟨m, s + 1⟩
      else mulFit (roundAtPow m 1 .halfEven) s

/-- Checked addition (result scale `max(a.scale, b.scale)`; an overflowing
mantissa sheds fractional digits while any remain, then reports `none`). -/
def checked_add (a b : Dec) : Option Dec :=
  let s := max a.scale b.scale
  let m := a.man * (10 : ℤ) ^ (s - a.scale) + b.man * (10 : ℤ) ^ (s - b.scale)
  mulFit m s

/-- Checked subtraction. -/
def checked_sub (a b : Dec) : Option Dec := checked_add a b.neg

/-- Checked multiplication (result scale `a.scale + b.scale` capped at 28
with half-even rounding, then reduced further while the mantissa overflows
96 bits; `none` only when no fractional digit is left to shed). -/
def checked_mul (a b : Dec) : Option Dec :=
  let m := a.man * b.man
  let s := a.scale + b.scale
  let m' := if 28 < s then roundAtPow m (s - 28) .halfEven else m
  mulFit m' (min s 28)

/-- Round `n / d` (for `d ≠ 0`) to the nearest integer, ties to even. -/
def roundRatHE (n d : ℤ) : ℤ :=
  let neg := (decide (n < 0)) ≠ (decide (d < 0))
  let mag := roundMag neg n.natAbs (d.natAbs) .halfEven
  if neg then -(mag : ℤ) else (mag : ℤ)

/-- First scale `s ≤ 28` at which `num / den` is exactly representable. -/
def exactScale (num den : ℤ) : Option ℕ :=
  (List.range 29).find? fun s => num * (10 : ℤ) ^ s % den == 0

/-- Find the largest scale `s ≤ 28` whose half-even-rounded mantissa fits
96 bits; scan downward from 28. -/
def divFit (num den : ℤ) : ℕ → Option Dec
  | 0 =>
      let m := roundRatHE num den
      if m.natAbs < mantissaBound then some ⟨m, 0⟩ else none
  | s + 1 =>
      let m := roundRatHE (num * (10 : ℤ) ^ (s + 1)) den
      if m.natAbs < mantissaBound then some ⟨m, s + 1⟩ else divFit num den s

/-- Checked division: `none` on a zero divisor; an exact quotient is returned
at the smallest sufficient scale, otherwise the quotient is rounded
half-even at the largest scale (at most 28) whose mantissa fits 96 bits. -/
def checked_div (a b : Dec) : Option Dec :=
  if b.man = 0 then none
  else
    let num := a.man * (10 : ℤ) ^ b.scale
    let den := b.man * (10 : ℤ) ^ a.scale
    match exactScale num den with
    | some s =>
        let m := (num * (10 : ℤ) ^ s) / den
        if m.natAbs < mantissaBound then some ⟨m, s⟩ else none
    | none => divFit num den 28

end Dec

/-- The `ArithmeticError` failure set of `precision-core`. -/
inductive ArithmeticError where
  | overflow
  | underflow
  | divisionByZero
  | scaleExceeded
  | negativeSqrt
  | logOfZero
  | logOfNegative
deriving DecidableEq

namespace Dec

/-- `Decimal::try_add`. -/
def try_add (a b : Dec) : Except ArithmeticError Dec :=
  match checked_add a b with
  | some r => .ok r
  | none => .error .overflow

/-- `Decimal::try_sub`. -/
def try_sub (a b : Dec) : Except ArithmeticError Dec :=
  match checked_sub a b with
  | some r => .ok r
  | none => .error .overflow

/-- `Decimal::try_mul`. -/
def try_mul (a b : Dec) : Except ArithmeticError Dec :=
  match checked_mul a b with
  | some r => .ok r
  | none => .error .overflow

/-- `Decimal::try_div`: distinguishes `DivisionByZero` from `Overflow`. -/
def try_div (a b : Dec) : Except ArithmeticError Dec :=
  if b.is_zero then .error .divisionByZero
  else
    match checked_div a b with
    | some r => .ok r
    | none => .error .overflow

end Dec

/-- The `ParseError` failure set of `precision-core`. -/
inductive ParseError where
  | empty
  | invalidCharacter
  | multipleDecimalPoints
  | outOfRange
deriving DecidableEq

namespace Dec

/-- Numeric value of a digit character. -/
def digitVal (c : Char) : ℕ := c.toNat - Char.toNat '0'

/-- Accumulate the numeric value of a list of digit characters. -/
def parseNat (cs : List Char) : ℕ :=
  cs.foldl (fun acc c => 10 * acc + digitVal c) 0

/-- Decimal digit characters of `n`, most significant first, with explicit
fuel (`n < 10^fuel` required for completeness; 96 covers every mantissa). -/
def natCharsAux : ℕ → ℕ → List Char
  | 0, _ => []
  | fuel + 1, n =>
      if n = 0 then []
      else natCharsAux fuel (n / 10) ++ [Nat.digitChar (n % 10)]

/-- Decimal digit characters of `n` (`"0"` for zero). -/
def natChars (n : ℕ) : List Char :=
  if n = 0 then [Char.ofNat 48] else natCharsAux 96 n

/-- The unsigned part of the rendering of a decimal with mantissa magnitude
`n` and scale `sc`: the integer part and — when the scale is positive — a
dot followed by exactly `sc` fractional digits (trailing zeros preserved). -/
def bodyChars (n sc : ℕ) : List Char :=
  if sc = 0 then natChars n
  else
    let fracDigits := natCharsAux 96 (n % 10 ^ sc)
    let pad := sc - fracDigits.length
    natChars (n / 10 ^ sc) ++
      Char.ofNat 46 :: (List.replicate pad (Char.ofNat 48) ++ fracDigits)

/-- The characters `Display for Decimal` emits: optional minus sign followed
by the unsigned body. -/
def toChars (d : Dec) : List Char :=
  (if d.man < 0 then [Char.ofNat 45] else []) ++ bodyChars d.man.natAbs d.scale

/-- `to_string` (the `Display` impl): renders mantissa and scale directly,
preserving the stored scale. -/
def to_string (d : Dec) : String := ⟨toChars d⟩

/-- Consume an optional leading sign, returning the negativity flag and the
remaining characters. -/
def splitSign : List Char → Bool × List Char
  | [] => (false, [])
  | c :: t =>
      if c = Char.ofNat 45 then (true, t)
      else if c = Char.ofNat 43 then (false, t)
      else (false, c :: t)

/-- Modelled from the spec: `rust_decimal::Decimal::from_str`, the underlying
parser (its source is outside this repository).  Per §4.1 it accepts an
optional sign, an integer part and an optional fractional part, and rejects
multiple dots, any other non-digit character, and out-of-range magnitudes
(the wrapper collapses every such rejection into one error kind). -/
def rustParse (cs : List Char) : Option Dec :=
  let sp := splitSign cs
  let neg := sp.1
  let rest := sp.2
  if rest.isEmpty then none
  else
    let intPart := rest.takeWhile (fun c => c != Char.ofNat 46)
    let rest2 := rest.dropWhile (fun c => c != Char.ofNat 46)
    let frac? : Option (List Char) :=
      match rest2 with
      | [] => some []
      | _ :: t => if Char.ofNat 46 ∈ t then none else some t
    match frac? with
    | none => none
    | some frac =>
        if intPart.isEmpty then none
        else if ¬ (intPart.all Char.isDigit ∧ frac.all Char.isDigit) then none
        else if 28 < frac.length then none
        else
          let mag := parseNat intPart * 10 ^ frac.length + parseNat frac
          if mantissaBound ≤ mag then none
          else some ⟨if neg then -(mag : ℤ) else (mag : ℤ), frac.length⟩

/-- The `FromStr` impl from `decimal.rs`: an empty string reports `Empty`;
every other parse failure of the underlying parser is mapped to
`InvalidCharacter`. -/
def from_str (s : String) : Except ParseError Dec :=
  if s.data = [] then .error .empty
  else
    match rustParse s.data with
    | some d => .ok d
    | none => .error .invalidCharacter

end Dec

/-! ### Transcendental kernels

The wrapper methods in `decimal.rs` delegate `sqrt`, `exp` and `ln` to the
underlying decimal library, whose source is outside this repository; §4.2 of
the specification describes those kernels (correctly rounded square root at
the maximal fitting scale; Taylor-series `exp` with termination below
`10⁻²⁰` and power-of-two range reduction; `ln` via the arctanh identity
with range reduction by `e`), and the models below follow that
description over the checked decimal arithmetic. -/

/-- A value of a Rust computation that can also abort: `panicked` models a
panic of the underlying library (e.g. `rust_decimal`'s `exp` on overflow,
whose documentation says it panics when the result is unrepresentable). -/
inductive RustVal (α : Type) where
  | panicked
  | value (a : α)
deriving DecidableEq

/-- Digit-by-digit integer square root, structurally recursive on fuel
(`4^fuel > n` required; 160 covers every scaled mantissa used here). -/
def isqrtGo : ℕ → ℕ → ℕ
  | 0, _ => 0
  | fuel + 1, n =>
      if n = 0 then 0
      else
        let s := isqrtGo fuel (n / 4)
        let c := 2 * s + 1
        if c * c ≤ n then c else 2 * s

/-- `⌊√n⌋` for every `n < 4^160`. -/
def isqrtNat (n : ℕ) : ℕ := isqrtGo 160 n

namespace Dec

/-- Modelled from the spec: the square-root mantissa at scale `t` (requires
`2t ≥ scale`), rounded to nearest. -/
def sqrtAtScale (man scale t : ℕ) : ℕ :=
  let N := man * 10 ^ (2 * t - scale)
  let r := isqrtNat N
  if (2 * r + 1) ^ 2 ≤ 4 * N then r + 1 else r

/-- Modelled from the spec: scan downward for the largest scale at most 28
whose rounded square-root mantissa fits 96 bits (always found at scale 14
or above for well-formed inputs). -/
def sqrtPick (man scale : ℕ) : ℕ → Dec
  | 0 => ⟨0, 0⟩
  | t + 1 =>
      let m := sqrtAtScale man scale (t + 1)
      if m < mantissaBound then ⟨(m : ℤ), t + 1⟩ else sqrtPick man scale t

/-- `Decimal::sqrt` from `decimal.rs`: `None` for negative inputs, the
correctly rounded root at the maximal fitting scale otherwise. -/
def sqrt (d : Dec) : Option Dec :=
  if d.is_negative then none
  else some (sqrtPick d.man.natAbs d.scale 28)

/-- `Decimal::try_sqrt` from `decimal.rs`. -/
def try_sqrt (d : Dec) : Except ArithmeticError Dec :=
  if d.is_negative then .error .negativeSqrt
  else
    match d.sqrt with
    | some r => .ok r
    | none => .error .overflow

/-- Modelled from the spec: one Taylor step per unit of fuel, terminating
when the next term falls below `10⁻²⁰` in magnitude; every step uses the
checked decimal arithmetic, failing on overflow. -/
def taylorExpGo (x : Dec) : ℕ → Dec → Dec → ℕ → Option Dec
  | 0, sum, _, _ => some sum
  | fuel + 1, sum, term, k => do
      let t1 ← term.checked_mul x
      let term' ← t1.checked_div (ofInt k)
      if blt term'.abs ⟨1, 20⟩ then checked_add sum term'
      else do
        let sum' ← checked_add sum term'
        taylorExpGo x fuel sum' term' (k + 1)

/-- Square `v` a total of `n` times with checked multiplication. -/
def squareN : ℕ → Dec → Option Dec
  | 0, v => some v
  | n + 1, v => do
      let v2 ← v.checked_mul v
      squareN n v2

/-- Smallest `n` with `|x| ≤ 2^(n+1)` (so that `|x| / 2^n ≤ 2`), found by
an ascending fuelled scan. -/
def reduceN (x : Dec) : ℕ → ℕ → ℕ
  | 0, n => n
  | fuel + 1, n =>
      if ble x.abs (ofInt (2 ^ (n + 1))) then n
      else reduceN x fuel (n + 1)

/-- Modelled from the spec: `exp` for a non-negative argument — range
reduction `exp(x) = (exp(x/2^n))^(2^n)` with `x/2^n ≤ 2`, Taylor series,
then repeated squaring; `none` on overflow of any checked step. -/
def innerExpPos (x : Dec) : Option Dec :=
  let n := reduceN x 100 0
  do
    let y ← x.checked_div (ofInt (2 ^ n))
    let t ← taylorExpGo y 80 ⟨1, 0⟩ ⟨1, 0⟩ 1
    squareN n t

/-- Modelled from the spec: the underlying library's `exp` kernel; `none`
means the computation overflows (where the library panics). -/
def innerExp (x : Dec) : Option Dec :=
  if x.is_zero then some ⟨1, 0⟩
  else if x.is_negative then do
    let e ← innerExpPos x.abs
    Dec.one.checked_div e
  else innerExpPos x

/-- `Decimal::exp` from `decimal.rs`: inputs above `+100` return `None`,
inputs below `−100` return `Some(ZERO)`, and everything else calls the
underlying `exp` — which panics if the result is unrepresentable. -/
def exp (d : Dec) : RustVal (Option Dec) :=
  if blt (ofInt 100) d then .value none
  else if blt d (ofInt (-100)) then .value (some Dec.zero)
  else
    match innerExp d with
    | some v => .value (some v)
    | none => .panicked

/-- The exponential as an `Option`, with the panic collapsed into `none`.
Conservative for any claim conditioned on a returned value: a panicking
call returns nothing. -/
def expFlat (d : Dec) : Option Dec :=
  match d.exp with
  | .panicked => none
  | .value o => o

/-- `Decimal::try_exp` over the flattened exponential. -/
def try_exp (d : Dec) : Except ArithmeticError Dec :=
  match d.expFlat with
  | some v => .ok v
  | none => .error .overflow

/-- The constant `Decimal::e()` (the 30-significant-digit string of the
source, at scale 28). -/
def decE : Dec := ⟨27182818284590452353602874714, 28⟩

/-- The constant `Decimal::pi()` (the 30-significant-digit string of the
source, at scale 28). -/
def pi : Dec := ⟨31415926535897932384626433833, 28⟩

/-- Modelled from the spec: the arctanh series
`z + z³/3 + z⁵/5 + ⋯`, one odd term per unit of fuel, terminating below
`10⁻²⁰`. -/
def lnSeriesGo (zsq : Dec) : ℕ → Dec → Dec → ℕ → Option Dec
  | 0, sum, _, _ => some sum
  | fuel + 1, sum, zp, odd => do
      let zp' ← zp.checked_mul zsq
      let term ← zp'.checked_div (ofInt odd)
      if blt term.abs ⟨1, 20⟩ then checked_add sum term
      else do
        let sum' ← checked_add sum term
        lnSeriesGo zsq fuel sum' zp' (odd + 2)

/-- Modelled from the spec: `ln` near 1 via `2·arctanh((x−1)/(x+1))`. -/
def lnNear (x : Dec) : Option Dec := do
  let xm1 ← x.checked_sub ⟨1, 0⟩
  let xp1 ← x.checked_add ⟨1, 0⟩
  let z ← xm1.checked_div xp1
  let zsq ← z.checked_mul z
  let a ← lnSeriesGo zsq 60 z z 3
  (ofInt 2).checked_mul a

/-- Modelled from the spec: range reduction `ln(x) = ln(x/e) + 1` (and
`ln(x) = ln(x·e) − 1` below ½), with the integer offset accumulated. -/
def innerLnGo : ℕ → Dec → ℤ → Option Dec
  | 0, _, _ => none
  | fuel + 1, x, k =>
      if ble ⟨15, 1⟩ x then do
        let x' ← x.checked_div decE
        innerLnGo fuel x' (k + 1)
      else if ble x ⟨5, 1⟩ then do
        let x' ← x.checked_mul decE
        innerLnGo fuel x' (k - 1)
      else do
        let near ← lnNear x
        near.checked_add (ofInt k)

/-- Modelled from the spec: the underlying library's `ln` kernel for
positive inputs. -/
def innerLn (x : Dec) : Option Dec := innerLnGo 200 x 0

/-- `Decimal::ln` from `decimal.rs`: `None` unless the input is positive. -/
def ln (d : Dec) : Option Dec :=
  if !d.is_positive then none else innerLn d

/-- `Decimal::try_ln` from `decimal.rs`. -/
def try_ln (d : Dec) : Except ArithmeticError Dec :=
  if d.is_zero then .error .logOfZero
  else if d.is_negative then .error .logOfNegative
  else
    match d.ln with
    | some r => .ok r
    | none => .error .overflow

/-- The parity test of `Decimal::pow`:
`(exp_int / 2).floor() * 2 != exp_int` (the infix `/` and `*` on the halved
integer cannot fail; the `getD` fallbacks are unreachable). -/
def is_odd_exponent (e : Dec) : Bool :=
  let exp_int := e.floor
  let q := (exp_int.checked_div (ofInt 2)).getD exp_int
  let m := (q.floor.checked_mul (ofInt 2)).getD exp_int
  !(m.beq exp_int)

/-- `Decimal::pow` from `decimal.rs`: the special cases, the
integer-exponent gate for negative bases with sign by parity, and
`exp(exponent · ln(base))` for the rest.  A panic of the underlying `exp`
propagates. -/
def pow (b e : Dec) : RustVal (Option Dec) :=
  if e.is_zero then .value (some ⟨1, 0⟩)
  else if b.is_zero then
    .value (if e.is_positive then some ⟨0, 0⟩ else none)
  else if b.beq ⟨1, 0⟩ then .value (some ⟨1, 0⟩)
  else if b.is_negative then
    if !(e.floor.beq e) then .value none
    else
      match b.abs.ln with
      | none => .value none
      | some lnb =>
          match lnb.checked_mul e with
          | none => .value none
          | some prod =>
              match Dec.exp prod with
              | .panicked => .panicked
              | .value none => .value none
              | .value (some er) =>
                  .value (some (if is_odd_exponent e then er.neg else er))
  else
    match b.ln with
    | none => .value none
    | some lnx =>
        match lnx.checked_mul e with
        | none => .value none
        | some prod => Dec.exp prod

end Dec

/-- `FundingParams` from `financial-calc/src/derivatives.rs`. -/
structure FundingParams where
  mark_price : Dec
  index_price : Dec
  interest_rate : Dec
  premium_cap : Dec
  funding_interval_hours : Dec
deriving DecidableEq

/-- `calculate_funding_rate` from `derivatives.rs`: premium from mark/index,
annual interest prorated over the funding interval, sum clamped to the
premium cap. -/
def calculate_funding_rate (params : FundingParams) :
    Except ArithmeticError Dec := do
  let diff ← params.mark_price.try_sub params.index_price
  let premium ← diff.try_div params.index_price
  let hours_per_year := Dec.ofInt 8760
  let scaled ← params.interest_rate.try_mul params.funding_interval_hours
  let interval_interest ← scaled.try_div hours_per_year
  let raw_rate ← premium.try_add interval_interest
  let capped_rate :=
    if Dec.blt params.premium_cap raw_rate then params.premium_cap
    else if Dec.blt raw_rate params.premium_cap.neg then params.premium_cap.neg
    else raw_rate
  return capped_rate

/-- The funding-rate formula in the spec's own wording (§4.10), for
comparison with the implementation: there the interval interest is
`interest_rate · (interval_hours / 8760)`, with the division performed
first. -/
def spec_funding_rate (params : FundingParams) :
    Except ArithmeticError Dec := do
  let diff ← params.mark_price.try_sub params.index_price
  let premium ← diff.try_div params.index_price
  let hours_per_year := Dec.ofInt 8760
  let frac ← params.funding_interval_hours.try_div hours_per_year
  let interval_interest ← params.interest_rate.try_mul frac
  let raw_rate ← premium.try_add interval_interest
  let capped_rate :=
    if Dec.blt params.premium_cap raw_rate then params.premium_cap
    else if Dec.blt raw_rate params.premium_cap.neg then params.premium_cap.neg
    else raw_rate
  return capped_rate

/-- `calculate_swap_input` from `financial-calc/src/amm.rs`: the inverse
constant-product formula, plus `Decimal::ONE`. -/
def calculate_swap_input (reserve_in reserve_out amount_out fee_bps : Dec) :
    Except ArithmeticError Dec := do
  let bps_base := Dec.ofInt 10000
  let fee_factor ← bps_base.try_sub fee_bps
  let m1 ← reserve_in.try_mul amount_out
  let numerator ← m1.try_mul bps_base
  let s1 ← reserve_out.try_sub amount_out
  let denominator ← s1.try_mul fee_factor
  let q ← numerator.try_div denominator
  q.try_add Dec.one

/-- `OptionParams` from `financial-calc/src/options.rs`. -/
structure OptionParams where
  spot : Dec
  strike : Dec
  rate : Dec
  time : Dec
  volatility : Dec
deriving DecidableEq

/-- `validate_params` from `options.rs`. -/
def validate_params (params : OptionParams) : Except ArithmeticError Unit :=
  if Dec.ble params.spot Dec.zero then .error .logOfNegative
  else if Dec.ble params.strike Dec.zero then .error .logOfNegative
  else if Dec.ble params.time Dec.zero then .error .negativeSqrt
  else if Dec.ble params.volatility Dec.zero then .error .logOfNegative
  else .ok ()

/-- `normal_cdf` from `options.rs`: boundary saturation beyond `±8`, the
five-coefficient Horner polynomial in `k = 1/(1 + p·|x|)`, the explicit
pdf factor, and the symmetry reduction for negative arguments.  The
decimal literals are the source's `parse_const` constants. -/
def normal_cdf (x : Dec) : Except ArithmeticError Dec :=
  if Dec.blt ⟨80, 1⟩ x then .ok ⟨1, 0⟩
  else if Dec.blt x ⟨-80, 1⟩ then .ok ⟨0, 0⟩
  else
    let negate := Dec.blt x ⟨0, 0⟩
    let abs_x := if Dec.blt x ⟨0, 0⟩ then x.neg else x
    do
    let pm ← (⟨2316419, 7⟩ : Dec).try_mul abs_x
    let onep ← (⟨1, 0⟩ : Dec).try_add pm
    let k ← (⟨1, 0⟩ : Dec).try_div onep
    let t5 ← k.try_mul ⟨1330274429, 9⟩
    let u4 ← (⟨-1821255978, 9⟩ : Dec).try_add t5
    let t4 ← k.try_mul u4
    let u3 ← (⟨1781477937, 9⟩ : Dec).try_add t4
    let t3 ← k.try_mul u3
    let u2 ← (⟨-356563782, 9⟩ : Dec).try_add t3
    let t2 ← k.try_mul u2
    let u1 ← (⟨319381530, 9⟩ : Dec).try_add t2
    let poly ← k.try_mul u1
    let xx ← abs_x.try_mul abs_x
    let xh ← xx.try_div ⟨2, 0⟩
    let nh ← xh.try_mul ⟨-1, 0⟩
    let exp_term ← nh.try_exp
    let pdf ← exp_term.try_div ⟨25066282746310002, 16⟩
    let pp ← pdf.try_mul poly
    let n_x ← (⟨1, 0⟩ : Dec).try_sub pp
    if negate then (⟨1, 0⟩ : Dec).try_sub n_x else .ok n_x

/-- `normal_pdf` from `options.rs`. -/
def normal_pdf (x : Dec) : Except ArithmeticError Dec := do
  let two_pi ← Dec.pi.try_mul ⟨2, 0⟩
  let sqrt_two_pi ← two_pi.try_sqrt
  let xx ← x.try_mul x
  let xh ← xx.try_div ⟨2, 0⟩
  let nh ← xh.try_mul ⟨-1, 0⟩
  let exp_term ← nh.try_exp
  exp_term.try_div sqrt_two_pi

/-- `calculate_d1_d2` from `options.rs`. -/
def calculate_d1_d2 (params : OptionParams) :
    Except ArithmeticError (Dec × Dec) := do
  let sqrt_t ← params.time.try_sqrt
  let vol_sqrt_t ← params.volatility.try_mul sqrt_t
  let sk ← params.spot.try_div params.strike
  let ln_s_k ← sk.try_ln
  let vol_sq ← params.volatility.try_mul params.volatility
  let vol_sq_half ← vol_sq.try_div ⟨2, 0⟩
  let r_plus_vol ← params.rate.try_add vol_sq_half
  let rv_t ← r_plus_vol.try_mul params.time
  let numerator ← ln_s_k.try_add rv_t
  let d1 ← numerator.try_div vol_sqrt_t
  let d2 ← d1.try_sub vol_sqrt_t
  .ok (d1, d2)

/-- `black_scholes_call` from `options.rs`. -/
def black_scholes_call (params : OptionParams) : Except ArithmeticError Dec := do
  let _ ← validate_params params
  let dd ← calculate_d1_d2 params
  let n_d1 ← normal_cdf dd.1
  let n_d2 ← normal_cdf dd.2
  let rt ← params.rate.try_mul params.time
  let neg_rt ← rt.try_mul ⟨-1, 0⟩
  let discount ← neg_rt.try_exp
  let term1 ← params.spot.try_mul n_d1
  let kd ← params.strike.try_mul discount
  let term2 ← kd.try_mul n_d2
  term1.try_sub term2

/-- `black_scholes_put` from `options.rs`. -/
def black_scholes_put (params : OptionParams) : Except ArithmeticError Dec := do
  let _ ← validate_params params
  let dd ← calculate_d1_d2 params
  let n_neg_d1 ← normal_cdf dd.1.neg
  let n_neg_d2 ← normal_cdf dd.2.neg
  let rt ← params.rate.try_mul params.time
  let neg_rt ← rt.try_mul ⟨-1, 0⟩
  let discount ← neg_rt.try_exp
  let term1 ← params.strike.try_mul discount
  let term1 ← term1.try_mul n_neg_d2
  let term2 ← params.spot.try_mul n_neg_d1
  term1.try_sub term2

/-- The `min_vol` clamp bound of `implied_volatility` (`0.01`). -/
def minVol : Dec := ⟨1, 2⟩

/-- The `max_vol` clamp bound of `implied_volatility` (`5.0`). -/
def maxVol : Dec := ⟨50, 1⟩

/-- `sigma.max(min_vol).min(max_vol)` — the re-clamp applied to the seed and
after every Newton update. -/
def clampVol (sigma : Dec) : Dec := Dec.dmin (Dec.dmax sigma minVol) maxVol

/-- The `for _ in 0..max_iter` loop of `implied_volatility`, one unit of
fuel per iteration; the fuel-exhausted arm is the post-loop `Ok(sigma)`.
Written as explicit matches — each `match` is a `?` of the source. -/
def ivGo (market_price : Dec) (params : OptionParams) (is_call : Bool)
    (tol : Dec) : ℕ → Dec → Except ArithmeticError Dec
  | 0, sigma => .ok sigma
  | n + 1, sigma =>
      match (if is_call then black_scholes_call { params with volatility := sigma }
        else black_scholes_put { params with volatility := sigma }) with
      | .error e => .error e
      | .ok price =>
          match price.try_sub market_price with
          | .error e => .error e
          | .ok diff =>
              if Dec.blt diff.abs tol then .ok sigma
              else
                match calculate_d1_d2 { params with volatility := sigma } with
                | .error e => .error e
                | .ok dd =>
                    match params.time.try_sqrt with
                    | .error e => .error e
                    | .ok sqrt_t =>
                        match normal_pdf dd.1 with
                        | .error e => .error e
                        | .ok npd1 =>
                            match params.spot.try_mul sqrt_t with
                            | .error e => .error e
                            | .ok v1 =>
                                match v1.try_mul npd1 with
                                | .error e => .error e
                                | .ok vega =>
                                    if Dec.blt vega.abs ⟨1, 8⟩ then .ok sigma
                                    else
                                      match diff.try_div vega with
                                      | .error e => .error e
                                      | .ok adjustment =>
                                          match sigma.try_sub adjustment with
                                          | .error e => .error e
                                          | .ok sigma2 =>
                                              ivGo market_price params is_call
                                                tol n (clampVol sigma2)

/-- `implied_volatility` from `options.rs`: Brenner–Subrahmanyam seed,
clamped to `[0.01, 5.0]`, then the Newton–Raphson loop. -/
def implied_volatility (market_price : Dec) (params : OptionParams)
    (is_call : Bool) (max_iterations : Option ℕ) (tolerance : Option Dec) :
    Except ArithmeticError Dec := do
  let max_iter := max_iterations.getD 100
  let tol := tolerance.getD ⟨1, 4⟩
  let two_pi ← Dec.pi.try_mul ⟨2, 0⟩
  let tp ← two_pi.try_div params.time
  let root ← tp.try_sqrt
  let ratio ← market_price.try_div params.spot
  let sigma ← root.try_mul ratio
  ivGo market_price params is_call tol max_iter (clampVol sigma)

/-- `SolverResult` from `financial-calc/src/solver.rs`. -/
structure SolverResult where
  root : Dec
  iterations : ℕ
  residual : Dec
  converged : Bool
deriving DecidableEq

/-- `DEFAULT_MAX_ITER` from `solver.rs`. -/
def DEFAULT_MAX_ITER : ℕ := 100

/-- `default_tolerance` from `solver.rs`: `1e-12`. -/
def default_tolerance : Dec := ⟨1, 12⟩

/-- The `loop` of `newton_raphson`, with explicit fuel.  Entry passes
`max + 1` fuel, which the iteration-cap check makes sufficient, so the
fuel-exhausted arm is unreachable from `newton_raphson`. -/
def newtonGo (f df : Dec → Except ArithmeticError Dec) (tol : Dec) (max : ℕ) :
    ℕ → Dec → ℕ → Except ArithmeticError SolverResult
  | 0, _, _ => .error .overflow
  | fuel + 1, x, iterations => do
      let fx ← f x
      if Dec.blt fx.abs tol then
        .ok ⟨x, iterations, fx, true⟩
      else if max ≤ iterations then
        .ok ⟨x, iterations, fx, false⟩
      else do
        let dfx ← df x
        if Dec.blt dfx.abs ⟨1, 20⟩ then
          .ok ⟨x, iterations, fx, false⟩
        else do
          let step ← fx.try_div dfx
          let x' ← x.try_sub step
          newtonGo f df tol max fuel x' (iterations + 1)

/-- `newton_raphson` from `solver.rs`. -/
def newton_raphson (f df : Dec → Except ArithmeticError Dec) (x0 : Dec)
    (tolerance : Option Dec) (max_iter : Option ℕ) :
    Except ArithmeticError SolverResult :=
  let tol := tolerance.getD default_tolerance
  let max := max_iter.getD DEFAULT_MAX_ITER
  newtonGo f df tol max (max + 1) x0 0

/-- The post-loop epilogue of `bisection`: recompute the midpoint and its
residual and return a non-converged result. -/
def bisectEnding (f : Dec → Except ArithmeticError Dec) (a b : Dec)
    (iterations : ℕ) : Except ArithmeticError SolverResult := do
  let s ← a.try_add b
  let mid ← s.try_div (Dec.ofInt 2)
  let fmid ← f mid
  .ok ⟨mid, iterations, fmid, false⟩

/-- The `while iterations < max` loop of `bisection`, with explicit fuel
(entry passes `max + 1`, which suffices; the fuel-exhausted arm coincides
with the loop exit). -/
def bisectGo (f : Dec → Except ArithmeticError Dec) (tol : Dec) (max : ℕ) :
    ℕ → Dec → Dec → Dec → ℕ → Except ArithmeticError SolverResult
  | 0, a, b, _, iterations => bisectEnding f a b iterations
  | fuel + 1, a, b, fa, iterations =>
      if iterations < max then do
        let s ← a.try_add b
        let mid ← s.try_div (Dec.ofInt 2)
        let fmid ← f mid
        if Dec.blt fmid.abs tol then
          .ok ⟨mid, iterations, fmid, true⟩
        else do
          let w ← b.try_sub a
          if Dec.blt w.abs tol then
            .ok ⟨mid, iterations, fmid, true⟩
          else
            if fa.is_positive == fmid.is_positive then
              bisectGo f tol max fuel mid b fmid (iterations + 1)
            else
              bisectGo f tol max fuel a mid fa (iterations + 1)
      else bisectEnding f a b iterations

/-- `bisection` from `solver.rs`: no-bracket inputs report
`DivisionByZero`; the loop halves the bracket. -/
def bisection (f : Dec → Except ArithmeticError Dec) (a b : Dec)
    (tolerance : Option Dec) (max_iter : Option ℕ) :
    Except ArithmeticError SolverResult := do
  let tol := tolerance.getD default_tolerance
  let max := max_iter.getD DEFAULT_MAX_ITER
  let fa ← f a
  let fb ← f b
  if fa.is_positive == fb.is_positive && !fa.is_zero && !fb.is_zero then
    .error .divisionByZero
  else
    bisectGo f tol max (max + 1) a b fa 0

/-- The `while iterations < max` loop of `secant`, with explicit fuel (the
fuel-exhausted arm coincides with the loop exit). -/
def secantGo (f : Dec → Except ArithmeticError Dec) (tol : Dec) (max : ℕ) :
    ℕ → Dec → Dec → Dec → Dec → ℕ → Except ArithmeticError SolverResult
  | 0, _, x1, _, f1, iterations => .ok ⟨x1, iterations, f1, false⟩
  | fuel + 1, x0, x1, f0, f1, iterations =>
      if iterations < max then
        if Dec.blt f1.abs tol then
          .ok ⟨x1, iterations, f1, true⟩
        else do
          let df ← f1.try_sub f0
          if Dec.blt df.abs ⟨1, 20⟩ then
            .ok ⟨x1, iterations, f1, false⟩
          else do
            let dx ← x1.try_sub x0
            let num ← f1.try_mul dx
            let q ← num.try_div df
            let x2 ← x1.try_sub q
            let f2 ← f x2
            secantGo f tol max fuel x1 x2 f1 f2 (iterations + 1)
      else .ok ⟨x1, iterations, f1, false⟩

/-- `secant` from `solver.rs`. -/
def secant (f : Dec → Except ArithmeticError Dec) (x0 x1 : Dec)
    (tolerance : Option Dec) (max_iter : Option ℕ) :
    Except ArithmeticError SolverResult := do
  let tol := tolerance.getD default_tolerance
  let max := max_iter.getD DEFAULT_MAX_ITER
  let f0 ← f x0
  let f1 ← f x1
  secantGo f tol max (max + 1) x0 x1 f0 f1 0

/-- The `while iterations < max` loop of `brent`, with explicit fuel (the
fuel-exhausted arm coincides with the loop exit).  The state arguments are,
in order, `a b c d e fa fb fc` of the source. -/
def brentGo (f : Dec → Except ArithmeticError Dec) (tol : Dec) (max : ℕ) :
    ℕ → Dec → Dec → Dec → Dec → Dec → Dec → Dec → Dec → ℕ →
      Except ArithmeticError SolverResult
  | 0, _, b, _, _, _, _, fb, _, iterations => .ok ⟨b, iterations, fb, false⟩
  | fuel + 1, a, b, c, d, e, fa, fb, fc, iterations =>
      if iterations < max then
        if Dec.blt fb.abs tol then
          .ok ⟨b, iterations, fb, true⟩
        else
          let rot := Dec.blt fa.abs fb.abs
          let a' := if rot then b else a
          let b' := if rot then c else b
          let c' := if rot then b else c
          let fa' := if rot then fb else fa
          let fb' := if rot then fc else fb
          let fc' := if rot then fb else fc
          do
          let t1 ← (Dec.ofInt 2).try_mul ⟨1, 15⟩
          let t2 ← t1.try_mul b'.abs
          let t3 ← tol.try_div (Dec.ofInt 2)
          let tol1 ← t2.try_add t3
          let cb ← c'.try_sub b'
          let xm ← cb.try_div (Dec.ofInt 2)
          if Dec.ble xm.abs tol1 || Dec.blt fb'.abs tol then
            .ok ⟨b', iterations, fb', true⟩
          else do
            let de ←
              (if Dec.ble tol1 e.abs && Dec.blt fb'.abs fa'.abs then do
                let ac ← a'.try_sub c'
                let s ←
                  (if Dec.blt ac.abs ⟨1, 20⟩ then do
                    let ba ← b'.try_sub a'
                    let n1 ← fb'.try_mul ba
                    let dd ← fa'.try_sub fb'
                    n1.try_div dd
                  else do
                    let r ← fb'.try_div fc'
                    let q ← fa'.try_div fc'
                    let p ← fb'.try_div fa'
                    let q1 ← q.try_sub Dec.one
                    let xm2 ← (Dec.ofInt 2).try_mul xm
                    let t4 ← xm2.try_mul q1
                    let t5 ← p.try_mul t4
                    let ba ← b'.try_sub a'
                    let t6 ← ba.try_mul q1
                    let num ← t5.try_sub t6
                    let r1 ← r.try_sub Dec.one
                    let p1 ← p.try_sub Dec.one
                    let t7 ← q1.try_mul r1
                    let den ← t7.try_mul p1
                    if Dec.blt ⟨1, 20⟩ den.abs then num.try_div den
                    else .ok xm)
                let t8 ← (Dec.ofInt 3).try_mul xm
                let t9 ← t8.try_div (Dec.ofInt 4)
                let t10 ← tol1.try_div (Dec.ofInt 2)
                let t11 ← t9.try_sub t10
                let bound1 := t11.abs
                let bound2 ← e.abs.try_div (Dec.ofInt 2)
                if Dec.blt s.abs (Dec.dmin bound1 bound2) then
                  .ok (s, d)
                else .ok (xm, xm)
              else .ok (xm, xm))
            let d2 := de.1
            let e2 := de.2
            let a2 := b'
            let fa2 := fb'
            let b2 ←
              (if Dec.blt tol1 d2.abs then b'.try_add d2
              else do
                let sign := if xm.is_positive then Dec.one else Dec.negOne
                let st ← sign.try_mul tol1
                b'.try_add st)
            let fb2 ← f b2
            if (fb2.is_positive && fc'.is_positive)
                || (fb2.is_negative && fc'.is_negative) then do
              let d3 ← b2.try_sub a2
              brentGo f tol max fuel a2 b2 a2 d3 d3 fa2 fb2 fa2 (iterations + 1)
            else
              brentGo f tol max fuel a2 b2 c' d2 e2 fa2 fb2 fc' (iterations + 1)
      else .ok ⟨b, iterations, fb, false⟩

/-- `brent` from `solver.rs`: bracket check, initial ordering by residual
magnitude, then the loop. -/
def brent (f : Dec → Except ArithmeticError Dec) (a b : Dec)
    (tolerance : Option Dec) (max_iter : Option ℕ) :
    Except ArithmeticError SolverResult := do
  let tol := tolerance.getD default_tolerance
  let max := max_iter.getD DEFAULT_MAX_ITER
  let fa ← f a
  let fb ← f b
  if fa.is_positive == fb.is_positive && !fa.is_zero && !fb.is_zero then
    .error .divisionByZero
  else
    let swap := Dec.blt fa.abs fb.abs
    let a' := if swap then b else a
    let b' := if swap then a else b
    let fa' := if swap then fb else fa
    let fb' := if swap then fa else fb
    do
    let d ← b'.try_sub a'
    brentGo f tol max (max + 1) a' b' a' d d fa' fb' fa' 0

/-- The fixed-point scale used by the Stylus adapters (`10^18`). -/
def vmScale : Dec := Dec.ofInt 1000000000000000000

/-- `decimal_to_u256` from the Stylus examples and the gas benchmark:
scale up by `10^18` saturating to `Decimal::MAX` on overflow, round toward
zero, and take the unsigned magnitude of the mantissa.  Total — it never
reports an error. -/
def decimal_to_u256 (value : Dec) : ℕ :=
  let scaled := ((value.checked_mul vmScale).getD Dec.maxDec).round 0 .towardZero
  scaled.man.natAbs

/-! ## Claim C2: the rounding table -/

/-- **C2.** `round(dp, mode)` reproduces the specification's rounding table
exactly: at `dp = 0`, `2.5` rounds to `2` under HalfEven and `3` under
HalfUp; `3.5` to `4` under both; `-2.5` to `-2` / `-3`; `-3.5` to `-4`
under both; at `dp = 1`, `2.25` rounds to `2.2` / `2.3` and `2.35` to
`2.4` under both; at `dp = 2`, `0.005` rounds to `0.00` / `0.01`. -/
theorem round_table_matches_spec :
    Dec.round ⟨25, 1⟩ 0 .halfEven = ⟨2, 0⟩ ∧
    Dec.round ⟨25, 1⟩ 0 .halfUp = ⟨3, 0⟩ ∧
    Dec.round ⟨35, 1⟩ 0 .halfEven = ⟨4, 0⟩ ∧
    Dec.round ⟨35, 1⟩ 0 .halfUp = ⟨4, 0⟩ ∧
    Dec.round ⟨-25, 1⟩ 0 .halfEven = ⟨-2, 0⟩ ∧
    Dec.round ⟨-25, 1⟩ 0 .halfUp = ⟨-3, 0⟩ ∧
    Dec.round ⟨-35, 1⟩ 0 .halfEven = ⟨-4, 0⟩ ∧
    Dec.round ⟨-35, 1⟩ 0 .halfUp = ⟨-4, 0⟩ ∧
    Dec.round ⟨225, 2⟩ 1 .halfEven = ⟨22, 1⟩ ∧
    Dec.round ⟨225, 2⟩ 1 .halfUp = ⟨23, 1⟩ ∧
    Dec.round ⟨235, 2⟩ 1 .halfEven = ⟨24, 1⟩ ∧
    Dec.round ⟨235, 2⟩ 1 .halfUp = ⟨24, 1⟩ ∧
    Dec.round ⟨5, 3⟩ 2 .halfEven = ⟨0, 2⟩ ∧
    Dec.round ⟨5, 3⟩ 2 .halfUp = ⟨1, 2⟩ := by
  decide

/-! ## Digit-string lemmas for parse/format round-tripping -/

theorem digitVal_digitChar : ∀ r, r < 10 → Dec.digitVal (Nat.digitChar r) = r := by
  decide

theorem isDigit_digitChar : ∀ r, r < 10 → (Nat.digitChar r).isDigit = true := by
  decide

theorem digit_ne_dot {c : Char} (h : c.isDigit = true) : (c != Char.ofNat 46) = true := by
  refine bne_iff_ne.mpr fun e => ?_
  rw [e] at h
  exact absurd h (by decide)

theorem digit_ne_minus {c : Char} (h : c.isDigit = true) : c ≠ Char.ofNat 45 := by
  intro e; rw [e] at h; exact absurd h (by decide)

theorem digit_ne_plus {c : Char} (h : c.isDigit = true) : c ≠ Char.ofNat 43 := by
  intro e; rw [e] at h; exact absurd h (by decide)

theorem natCharsAux_digits :
    ∀ fuel n c, c ∈ Dec.natCharsAux fuel n → c.isDigit = true := by
  intro fuel
  induction fuel with
  | zero => intro n c hc; simp [Dec.natCharsAux] at hc
  | succ f ih =>
      intro n c hc
      unfold Dec.natCharsAux at hc
      by_cases h : n = 0
      · simp [h] at hc
      · rw [if_neg h] at hc
        rcases List.mem_append.mp hc with h1 | h2
        · exact ih _ _ h1
        · rcases List.mem_singleton.mp h2 with rfl
          exact isDigit_digitChar _ (Nat.mod_lt _ (by norm_num))

theorem natCharsAux_ne_nil {fuel n : ℕ} (h : n ≠ 0) :
    Dec.natCharsAux (fuel + 1) n ≠ [] := by
  simp [Dec.natCharsAux, h]

theorem natCharsAux_length_le :
    ∀ fuel k n, n < 10 ^ k → (Dec.natCharsAux fuel n).length ≤ k := by
  intro fuel
  induction fuel with
  | zero => intro k n _; simp [Dec.natCharsAux]
  | succ f ih =>
      intro k n hn
      unfold Dec.natCharsAux
      by_cases h : n = 0
      · simp [h]
      · rw [if_neg h]
        match k with
        | 0 => exact absurd (Nat.lt_one_iff.mp hn) h
        | k + 1 =>
            have hdiv : n / 10 < 10 ^ k := by
              rw [Nat.div_lt_iff_lt_mul (by norm_num)]
              calc n < 10 ^ (k + 1) := hn
                _ = 10 ^ k * 10 := by ring
            simpa using Nat.add_le_add_right (ih k (n / 10) hdiv) 1

theorem natCharsAux_foldl :
    ∀ fuel n acc, n < 10 ^ fuel →
      (Dec.natCharsAux fuel n).foldl (fun a c => 10 * a + Dec.digitVal c) acc
        = acc * 10 ^ (Dec.natCharsAux fuel n).length + n := by
  intro fuel
  induction fuel with
  | zero =>
      intro n acc hn
      have : n = 0 := Nat.lt_one_iff.mp (by simpa using hn)
      simp [Dec.natCharsAux, this]
  | succ f ih =>
      intro n acc hn
      unfold Dec.natCharsAux
      by_cases h : n = 0
      · simp [h]
      · rw [if_neg h]
        have hdiv : n / 10 < 10 ^ f := by
          rw [Nat.div_lt_iff_lt_mul (by norm_num)]
          calc n < 10 ^ (f + 1) := hn
            _ = 10 ^ f * 10 := by ring
        rw [List.foldl_append, ih (n / 10) acc hdiv]
        simp only [List.length_append, List.length_singleton, List.foldl_cons,
          List.foldl_nil]
        rw [digitVal_digitChar _ (Nat.mod_lt _ (by norm_num))]
        have hmod : 10 * (n / 10) + n % 10 = n := by omega
        rw [pow_succ]
        ring_nf
        omega

theorem natChars_ne_nil (n : ℕ) : Dec.natChars n ≠ [] := by
  unfold Dec.natChars
  by_cases h : n = 0
  · simp [h]
  · rw [if_neg h]
    exact natCharsAux_ne_nil h

theorem natChars_digits {n : ℕ} {c : Char} (hc : c ∈ Dec.natChars n) :
    c.isDigit = true := by
  unfold Dec.natChars at hc
  by_cases h : n = 0
  · rw [if_pos h] at hc
    rcases List.mem_singleton.mp hc with rfl
    decide
  · rw [if_neg h] at hc
    exact natCharsAux_digits _ _ _ hc

theorem parseNat_natChars {n : ℕ} (h : n < 10 ^ 96) :
    Dec.parseNat (Dec.natChars n) = n := by
  unfold Dec.natChars Dec.parseNat
  by_cases h0 : n = 0
  · simp [h0, Dec.digitVal]
  · rw [if_neg h0, natCharsAux_foldl 96 n 0 h]
    simp

theorem takeWhile_append_all {α : Type} {p : α → Bool} :
    ∀ as bs : List α, (∀ a ∈ as, p a = true) →
      List.takeWhile p (as ++ bs) = as ++ List.takeWhile p bs := by
  intro as
  induction as with
  | nil => intro bs _; simp
  | cons a t ih =>
      intro bs h
      have ha : p a = true := h a (by simp)
      simp only [List.cons_append, List.takeWhile_cons, ha, if_true]
      rw [ih bs fun x hx => h x (by simp [hx])]

theorem dropWhile_append_all {α : Type} {p : α → Bool} :
    ∀ as bs : List α, (∀ a ∈ as, p a = true) →
      List.dropWhile p (as ++ bs) = List.dropWhile p bs := by
  intro as
  induction as with
  | nil => intro bs _; simp
  | cons a t ih =>
      intro bs h
      have ha : p a = true := h a (by simp)
      simp only [List.cons_append, List.dropWhile_cons, ha, if_true]
      exact ih bs fun x hx => h x (by simp [hx])

theorem foldl_replicate_zeros (p : ℕ) (xs : List Char) :
    (List.replicate p (Char.ofNat 48) ++ xs).foldl
        (fun a c => 10 * a + Dec.digitVal c) 0
      = xs.foldl (fun a c => 10 * a + Dec.digitVal c) 0 := by
  induction p with
  | zero => simp
  | succ q ih =>
      rw [List.replicate_succ, List.cons_append, List.foldl_cons]
      have : 10 * 0 + Dec.digitVal (Char.ofNat 48) = 0 := by decide
      rw [this, ih]

theorem splitSign_cons_digit {c : Char} {t : List Char} (h : c.isDigit = true) :
    Dec.splitSign (c :: t) = (false, c :: t) := by
  simp only [Dec.splitSign]
  rw [if_neg (digit_ne_minus h), if_neg (digit_ne_plus h)]

theorem splitSign_minus (t : List Char) :
    Dec.splitSign (Char.ofNat 45 :: t) = (true, t) := by
  simp [Dec.splitSign]

theorem natChars_cons (m : ℕ) :
    ∃ c t, Dec.natChars m = c :: t ∧ c.isDigit = true := by
  cases hnc : Dec.natChars m with
  | nil => exact absurd hnc (natChars_ne_nil m)
  | cons c t =>
      refine ⟨c, t, rfl, natChars_digits (n := m) ?_⟩
      rw [hnc]
      exact List.mem_cons_self c t

theorem bodyChars_cons (n sc : ℕ) :
    ∃ c t, Dec.bodyChars n sc = c :: t ∧ c.isDigit = true := by
  unfold Dec.bodyChars
  by_cases h : sc = 0
  · rw [if_pos h]
    exact natChars_cons n
  · rw [if_neg h]
    obtain ⟨c, t, hct, hcd⟩ := natChars_cons (n / 10 ^ sc)
    exact ⟨c, t ++ _, by rw [hct]; rfl, hcd⟩

theorem rustParse_body (neg : Bool) (n sc : ℕ) (cs : List Char)
    (hn : n < mantissaBound) (hsc : sc ≤ 28)
    (hsplit : Dec.splitSign cs = (neg, Dec.bodyChars n sc)) :
    Dec.rustParse cs = some ⟨if neg then -(n : ℤ) else (n : ℤ), sc⟩ := by
  have hn96 : n < 10 ^ 96 := lt_trans hn (by norm_num [mantissaBound])
  unfold Dec.rustParse
  rw [hsplit]
  dsimp only
  by_cases h0 : sc = 0
  · subst h0
    have hbody : Dec.bodyChars n 0 = Dec.natChars n := by rw [Dec.bodyChars]; simp
    obtain ⟨c, t, hct, _⟩ := natChars_cons n
    have hall : ∀ a ∈ Dec.natChars n, (a != Char.ofNat 46) = true :=
      fun a ha => digit_ne_dot (natChars_digits ha)
    have htw : (Dec.bodyChars n 0).takeWhile (fun c => c != Char.ofNat 46)
        = Dec.natChars n := by
      rw [hbody]
      have := takeWhile_append_all (p := fun c => c != Char.ofNat 46)
        (Dec.natChars n) [] hall
      simpa using this
    have hdw : (Dec.bodyChars n 0).dropWhile (fun c => c != Char.ofNat 46)
        = [] := by
      rw [hbody]
      have := dropWhile_append_all (p := fun c => c != Char.ofNat 46)
        (Dec.natChars n) [] hall
      simpa using this
    have hne : (Dec.bodyChars n 0).isEmpty = false := by rw [hbody, hct]; rfl
    have hie : (Dec.natChars n).isEmpty = false := by rw [hct]; rfl
    have halld : (Dec.natChars n).all Char.isDigit = true :=
      List.all_eq_true.mpr fun c hc => natChars_digits hc
    have hpn : Dec.parseNat (Dec.natChars n) = n := parseNat_natChars hn96
    have hpe : Dec.parseNat ([] : List Char) = 0 := rfl
    simp only [hne, Bool.false_eq_true, if_false, htw, hdw]
    simp only [hie, Bool.false_eq_true, if_false, halld,
      List.all_nil, and_self, not_true, eq_self_iff_true, List.length_nil,
      Nat.not_lt_zero, pow_zero, mul_one, hpn, hpe, Nat.add_zero]
    rw [if_neg (show ¬ mantissaBound ≤ n by omega)]
  · have hscpos : 0 < sc := Nat.pos_of_ne_zero h0
    have hppos : 0 < 10 ^ sc := Nat.pos_pow_of_pos sc (by norm_num)
    set fracD := Dec.natCharsAux 96 (n % 10 ^ sc) with hfracD
    set pad := sc - fracD.length with hpad
    have hbody : Dec.bodyChars n sc
        = Dec.natChars (n / 10 ^ sc) ++
            Char.ofNat 46 :: (List.replicate pad (Char.ofNat 48) ++ fracD) := by
      rw [Dec.bodyChars, if_neg h0]
    have hallint : ∀ a ∈ Dec.natChars (n / 10 ^ sc),
        (a != Char.ofNat 46) = true :=
      fun a ha => digit_ne_dot (natChars_digits ha)
    have htw : (Dec.bodyChars n sc).takeWhile (fun c => c != Char.ofNat 46)
        = Dec.natChars (n / 10 ^ sc) := by
      rw [hbody, takeWhile_append_all _ _ hallint, List.takeWhile_cons]
      simp
    have hdw : (Dec.bodyChars n sc).dropWhile (fun c => c != Char.ofNat 46)
        = Char.ofNat 46 :: (List.replicate pad (Char.ofNat 48) ++ fracD) := by
      rw [hbody, dropWhile_append_all _ _ hallint, List.dropWhile_cons]
      simp
    have hfrdig : ∀ c ∈ List.replicate pad (Char.ofNat 48) ++ fracD,
        c.isDigit = true := by
      intro c hc
      rcases List.mem_append.mp hc with h1 | h2
      · rw [List.eq_of_mem_replicate h1]; decide
      · exact natCharsAux_digits _ _ _ h2
    have hnodot : ¬ Char.ofNat 46 ∈ List.replicate pad (Char.ofNat 48) ++ fracD := by
      intro hmem
      have := hfrdig _ hmem
      exact absurd this (by decide)
    have hlenfr : (List.replicate pad (Char.ofNat 48) ++ fracD).length = sc := by
      have hle : fracD.length ≤ sc :=
        natCharsAux_length_le 96 sc (n % 10 ^ sc) (Nat.mod_lt n hppos)
      simp [hpad]
      omega
    obtain ⟨c, t, hct, _⟩ := natChars_cons (n / 10 ^ sc)
    have hne : (Dec.bodyChars n sc).isEmpty = false := by
      rw [hbody, hct]; rfl
    have hie : (Dec.natChars (n / 10 ^ sc)).isEmpty = false := by rw [hct]; rfl
    have halld : (Dec.natChars (n / 10 ^ sc)).all Char.isDigit = true :=
      List.all_eq_true.mpr fun c hc => natChars_digits hc
    have hallf : (List.replicate pad (Char.ofNat 48) ++ fracD).all Char.isDigit
        = true := List.all_eq_true.mpr hfrdig
    have hint : Dec.parseNat (Dec.natChars (n / 10 ^ sc)) = n / 10 ^ sc :=
      parseNat_natChars (lt_of_le_of_lt (Nat.div_le_self n _) hn96)
    have hfr : Dec.parseNat (List.replicate pad (Char.ofNat 48) ++ fracD)
        = n % 10 ^ sc := by
      rw [Dec.parseNat, foldl_replicate_zeros]
      have hmodlt : n % 10 ^ sc < 10 ^ 96 :=
        lt_of_lt_of_le (Nat.mod_lt n hppos)
          (Nat.pow_le_pow_right (by norm_num) (le_trans hsc (by norm_num)))
      rw [hfracD, natCharsAux_foldl 96 (n % 10 ^ sc) 0 hmodlt]
      simp
    simp only [hne, Bool.false_eq_true, if_false, htw, hdw]
    rw [if_neg hnodot]
    simp only [hie, Bool.false_eq_true, if_false, halld, hallf, and_self,
      not_true, eq_self_iff_true]
    rw [hlenfr, if_neg (show ¬ 28 < sc by omega), hint, hfr]
    have hmag : n / 10 ^ sc * 10 ^ sc + n % 10 ^ sc = n := by
      rw [Nat.mul_comm]
      exact Nat.div_add_mod n (10 ^ sc)
    rw [hmag, if_neg (show ¬ mantissaBound ≤ n by omega)]

/-! ## Claim C7: ParseError kinds actually produced by from_str -/

/-- **C7 counterexample.** A string with more than one decimal point is
rejected with `InvalidCharacter`, not `MultipleDecimalPoints`: the `FromStr`
impl maps every non-empty parse failure to `InvalidCharacter`. -/
theorem from_str_multiple_dots_counterexample :
    Dec.from_str ("1.2.3") = .error .invalidCharacter ∧
      Dec.from_str ("1.2.3") ≠ .error .multipleDecimalPoints := by
  constructor
  · decide
  · decide

/-- **C7 (amended).** `from_str` reports `Empty` for the empty string and
`InvalidCharacter` for every other rejection — a multi-dot string, an
out-of-range numeral (`2^96`), and a stray letter all yield
`InvalidCharacter`; `MultipleDecimalPoints` and `OutOfRange` are never
returned. -/
theorem from_str_error_kind_collapse :
    Dec.from_str ("") = .error .empty ∧
    (∀ (s : String) (e : ParseError),
        Dec.from_str s = .error e → e = .empty ∨ e = .invalidCharacter) ∧
    Dec.from_str ("1.2.3") = .error .invalidCharacter ∧
    Dec.from_str ("79228162514264337593543950336") = .error .invalidCharacter ∧
    Dec.from_str ("12a") = .error .invalidCharacter := by
  refine ⟨by decide, ?_, by decide, by decide, by decide⟩
  intro s e h
  unfold Dec.from_str at h
  by_cases hd : s.data = []
  · rw [if_pos hd] at h
    injection h with h1
    exact Or.inl h1.symm
  · rw [if_neg hd] at h
    rcases hp : Dec.rustParse s.data with _ | d
    · rw [hp] at h
      injection h with h1
      exact Or.inr h1.symm
    · rw [hp] at h
      exact absurd h (by simp)

/-- **C7 witness.** The error-kind conjunct applied at the concrete string
`".."` (two dots, no digits), which parses to `InvalidCharacter`. -/
theorem from_str_error_kind_collapse_witness :
    ParseError.invalidCharacter = .empty ∨
      ParseError.invalidCharacter = .invalidCharacter :=
  from_str_error_kind_collapse.2.1 (String.mk
    [Char.ofNat 46, Char.ofNat 46]) .invalidCharacter (by decide)

/-! ## Claim C8: to_string form and round-trip -/

/-- **C8 counterexample.** `to_string` is not the normalized canonical form:
for the decimal `1.10` (mantissa 110, scale 2) it renders `"1.10"`, while
the string of its normalization is `"1.1"`. -/
theorem to_string_trailing_zeros_counterexample :
    Dec.to_string ⟨110, 2⟩ ≠ Dec.to_string (Dec.normalize ⟨110, 2⟩) := by
  decide

/-- **C8 (amended).** `to_string` preserves the stored scale (trailing zeros
included); parsing it back with `from_str` succeeds and returns the decimal
exactly — same mantissa and same scale — for every well-formed decimal. -/
theorem to_string_round_trip_exact (d : Dec) (h : d.wf) :
    Dec.from_str (Dec.to_string d) = .ok d := by
  obtain ⟨m, s⟩ := d
  obtain ⟨hman, hsc⟩ := h
  simp only [Dec.wf] at hman hsc
  unfold Dec.to_string Dec.from_str
  by_cases hneg : m < 0
  · have htc : Dec.toChars ⟨m, s⟩ = Char.ofNat 45 :: Dec.bodyChars m.natAbs s := by
      unfold Dec.toChars
      rw [if_pos hneg]
      rfl
    have hdata : (String.mk (Dec.toChars ⟨m, s⟩)).data
        = Char.ofNat 45 :: Dec.bodyChars m.natAbs s := by rw [htc]
    rw [hdata, if_neg (by simp)]
    rw [rustParse_body true m.natAbs s _ hman hsc
      (by rw [splitSign_minus])]
    show Except.ok (⟨-((m.natAbs : ℤ)), s⟩ : Dec) = Except.ok ⟨m, s⟩
    rw [show -((m.natAbs : ℤ)) = m by omega]
  · obtain ⟨c, t, hct, hcd⟩ := bodyChars_cons m.natAbs s
    have htc : Dec.toChars ⟨m, s⟩ = Dec.bodyChars m.natAbs s := by
      unfold Dec.toChars
      rw [if_neg hneg]
      rfl
    have hdata : (String.mk (Dec.toChars ⟨m, s⟩)).data
        = Dec.bodyChars m.natAbs s := by rw [htc]
    rw [hdata, if_neg (by rw [hct]; simp)]
    rw [rustParse_body false m.natAbs s _ hman hsc
      (by rw [hct, splitSign_cons_digit hcd, ← hct])]
    show Except.ok (⟨((m.natAbs : ℤ)), s⟩ : Dec) = Except.ok ⟨m, s⟩
    rw [show ((m.natAbs : ℤ)) = m by omega]

/-- **C8 witness.** The round-trip applied at the concrete decimal `1.10`
(mantissa 110, scale 2): it renders and parses back to itself exactly. -/
theorem to_string_round_trip_exact_witness :
    Dec.from_str (Dec.to_string ⟨110, 2⟩) = .ok ⟨110, 2⟩ :=
  to_string_round_trip_exact ⟨110, 2⟩ (by decide)

/-! ## Reduction lemmas for the fallible operators -/

theorem except_bind_ok {ε α β : Type} (a : α) (f : α → Except ε β) :
    (Except.ok a >>= f : Except ε β) = f a := rfl

theorem option_bind_some {α β : Type} (a : α) (f : α → Option β) :
    ((some a >>= f) : Option β) = f a := rfl

theorem option_bind_none {α β : Type} (f : α → Option β) :
    ((none >>= f) : Option β) = none := rfl

theorem try_add_eq_ok {a b r : Dec} (h : Dec.checked_add a b = some r) :
    a.try_add b = .ok r := by unfold Dec.try_add; rw [h]

theorem try_sub_eq_ok {a b r : Dec} (h : Dec.checked_sub a b = some r) :
    a.try_sub b = .ok r := by unfold Dec.try_sub; rw [h]

theorem try_mul_eq_ok {a b r : Dec} (h : Dec.checked_mul a b = some r) :
    a.try_mul b = .ok r := by unfold Dec.try_mul; rw [h]

theorem try_div_eq_ok {a b r : Dec} (hb : b.is_zero = false)
    (h : Dec.checked_div a b = some r) : a.try_div b = .ok r := by
  unfold Dec.try_div
  rw [hb]
  simp only [Bool.false_eq_true, if_false, h]

/-! ## Claim C6: funding rate -/

/-- **C6 counterexample.** The implementation computes the interval interest
as `(interest_rate · interval_hours) / 8760`, not
`interest_rate · (interval_hours / 8760)` as the claim states; at
`mark = index = 1`, `interest = 7`, `cap = 1`, `interval = 1h` the two
differ in the last decimal digit, so the returned rate is not the claimed
formula's value. -/
theorem funding_rate_parenthesization_counterexample :
    calculate_funding_rate ⟨⟨1, 0⟩, ⟨1, 0⟩, ⟨7, 0⟩, ⟨1, 0⟩, ⟨1, 0⟩⟩
        = .ok ⟨7990867579908675799086758, 28⟩ ∧
    spec_funding_rate ⟨⟨1, 0⟩, ⟨1, 0⟩, ⟨7, 0⟩, ⟨1, 0⟩, ⟨1, 0⟩⟩
        = .ok ⟨7990867579908675799086757, 28⟩ ∧
    (⟨7990867579908675799086758, 28⟩ : Dec).val
        ≠ (⟨7990867579908675799086757, 28⟩ : Dec).val := by
  refine ⟨by decide, by decide, ?_⟩
  unfold Dec.val
  norm_num

/-- **C6 (amended).** For every `FundingParams` whose intermediate decimal
operations succeed (nonzero index price, no overflow), the result is
`premium + (interest_rate · interval_hours) / 8760` clamped to the premium
cap by the if-chain of the source; and at the spec's concrete scenario
(`mark = 2100, index = 2000, interest = 0, cap = 0.01, interval = 8h`) the
returned rate is exactly `0.01`. -/
theorem calculate_funding_rate_clamped :
    (∀ (p : FundingParams) (diff prem t1 ii raw : Dec),
        Dec.checked_sub p.mark_price p.index_price = some diff →
        p.index_price.is_zero = false →
        Dec.checked_div diff p.index_price = some prem →
        Dec.checked_mul p.interest_rate p.funding_interval_hours = some t1 →
        Dec.checked_div t1 (Dec.ofInt 8760) = some ii →
        Dec.checked_add prem ii = some raw →
        calculate_funding_rate p =
          .ok (if Dec.blt p.premium_cap raw then p.premium_cap
            else if Dec.blt raw p.premium_cap.neg then p.premium_cap.neg
            else raw)) ∧
    calculate_funding_rate ⟨⟨2100, 0⟩, ⟨2000, 0⟩, ⟨0, 0⟩, ⟨1, 2⟩, ⟨8, 0⟩⟩
        = .ok ⟨1, 2⟩ := by
  constructor
  · intro p diff prem t1 ii raw h1 hiz h2 h3 h4 h5
    simp only [calculate_funding_rate, try_sub_eq_ok h1, try_div_eq_ok hiz h2,
      try_mul_eq_ok h3, try_div_eq_ok (show (Dec.ofInt 8760).is_zero = false by decide) h4,
      try_add_eq_ok h5, except_bind_ok]
    rfl
  · decide

/-- **C6 witness.** The clamping conjunct applied at the spec's funding-cap
scenario: the raw premium `0.05` exceeds the cap and the cap `0.01` is
returned. -/
theorem calculate_funding_rate_clamped_witness :
    calculate_funding_rate ⟨⟨2100, 0⟩, ⟨2000, 0⟩, ⟨0, 0⟩, ⟨1, 2⟩, ⟨8, 0⟩⟩ =
      .ok (if Dec.blt ⟨1, 2⟩ ⟨5, 2⟩ then (⟨1, 2⟩ : Dec)
        else if Dec.blt ⟨5, 2⟩ (Dec.neg ⟨1, 2⟩) then Dec.neg ⟨1, 2⟩
        else ⟨5, 2⟩) :=
  calculate_funding_rate_clamped.1
    ⟨⟨2100, 0⟩, ⟨2000, 0⟩, ⟨0, 0⟩, ⟨1, 2⟩, ⟨8, 0⟩⟩
    ⟨100, 0⟩ ⟨5, 2⟩ ⟨0, 0⟩ ⟨0, 0⟩ ⟨5, 2⟩
    (by decide) (by decide) (by decide) (by decide) (by decide) (by decide)

/-! ## Claim C4: swap input adjustment -/

/-- **C4 counterexample.** `calculate_swap_input` in `financial-calc` adds a
whole `Decimal::ONE`, not `1/SCALE`: with reserves `100/100`, desired
output `50` and zero fee, the inverse formula value is exactly `100`, and
the function returns `101` — not `100 + 10⁻¹⁸`. -/
theorem swap_input_whole_unit_counterexample :
    calculate_swap_input ⟨100, 0⟩ ⟨100, 0⟩ ⟨50, 0⟩ ⟨0, 0⟩ = .ok ⟨101, 0⟩ ∧
    (⟨101, 0⟩ : Dec).val ≠ (100 : ℚ) + 1 / 10 ^ 18 := by
  refine ⟨by decide, ?_⟩
  unfold Dec.val
  norm_num

/-- **C4 (amended).** For all inputs whose intermediate decimal operations
succeed, `calculate_swap_input` returns
`reserve_in · amount_out · 10000 / ((reserve_out − amount_out) · (10000 −
fee_bps))` plus `Decimal::ONE` — one whole unit, not one unit in the last
decimal place (the `+ 1/SCALE` variant lives in the `stylus-amm` adapter). -/
theorem calculate_swap_input_plus_one :
    ∀ (rin rout amt fee ff m1 num s1 den q r : Dec),
      Dec.checked_sub (Dec.ofInt 10000) fee = some ff →
      Dec.checked_mul rin amt = some m1 →
      Dec.checked_mul m1 (Dec.ofInt 10000) = some num →
      Dec.checked_sub rout amt = some s1 →
      Dec.checked_mul s1 ff = some den →
      den.is_zero = false →
      Dec.checked_div num den = some q →
      Dec.checked_add q Dec.one = some r →
      calculate_swap_input rin rout amt fee = .ok r := by
  intro rin rout amt fee ff m1 num s1 den q r h1 h2 h3 h4 h5 hdz h6 h7
  simp only [calculate_swap_input, try_sub_eq_ok h1, try_mul_eq_ok h2,
    try_mul_eq_ok h3, try_sub_eq_ok h4, try_mul_eq_ok h5,
    try_div_eq_ok hdz h6, try_add_eq_ok h7, except_bind_ok]

/-- **C4 witness.** The amended statement applied at reserves `100/100`,
output `50`, zero fee: the quotient is `100` and the function returns
`101 = 100 + Decimal::ONE`. -/
theorem calculate_swap_input_plus_one_witness :
    calculate_swap_input ⟨100, 0⟩ ⟨100, 0⟩ ⟨50, 0⟩ ⟨0, 0⟩ = .ok ⟨101, 0⟩ :=
  calculate_swap_input_plus_one ⟨100, 0⟩ ⟨100, 0⟩ ⟨50, 0⟩ ⟨0, 0⟩
    ⟨10000, 0⟩ ⟨5000, 0⟩ ⟨50000000, 0⟩ ⟨50, 0⟩ ⟨500000, 0⟩ ⟨100, 0⟩ ⟨101, 0⟩
    (by decide) (by decide) (by decide) (by decide) (by decide) (by decide)
    (by decide) (by decide)

/-! ## Claim C9: the VM-facing decimal-to-integer adapter -/

/-- **C9 counterexample.** `decimal_to_u256` does not error on sign loss: at
input `-1` it returns `10^18` — the same value as for `+1` — because it
takes `unsigned_abs` of the mantissa. -/
theorem decimal_to_u256_sign_loss_counterexample :
    decimal_to_u256 ⟨-1, 0⟩ = 10 ^ 18 ∧
      decimal_to_u256 ⟨-1, 0⟩ = decimal_to_u256 ⟨1, 0⟩ := by
  constructor
  · decide
  · decide

/-- **C9 (amended).** The adapter is total: it multiplies by `SCALE`, rounds
`TowardZero` and extracts the mantissa magnitude; on multiplication
overflow it saturates to `Decimal::MAX` (returning `2^96 − 1`), and on
negative inputs it strips the sign instead of reporting an error. -/
theorem decimal_to_u256_total_saturating :
    (∀ (v w : Dec), Dec.checked_mul v vmScale = some w →
        decimal_to_u256 v = (w.round 0 .towardZero).man.natAbs) ∧
    decimal_to_u256 Dec.maxDec = 2 ^ 96 - 1 ∧
    decimal_to_u256 ⟨-1, 0⟩ = 10 ^ 18 := by
  refine ⟨?_, by decide, by decide⟩
  intro v w h
  unfold decimal_to_u256
  rw [h]
  rfl

/-! ## Claim C3: solvers at the iteration cap -/

/-- **C3 counterexample.** Bisection's post-loop epilogue re-evaluates the
function at a fresh midpoint, so reaching the iteration cap does not
guarantee an `Ok` result: with a function that brackets the root on
`[0, 2]` but fails at the midpoint `1`, and an iteration cap of `0`,
`bisection` returns `Err(Overflow)` instead of a non-converged
`SolverResult`. -/
theorem bisection_cap_error_counterexample :
    bisection
        (fun x => if x.beq ⟨1, 0⟩ then .error .overflow
          else if x.beq ⟨0, 0⟩ then .ok ⟨-1, 0⟩ else .ok ⟨1, 0⟩)
        ⟨0, 0⟩ ⟨2, 0⟩ none (some 0)
      = .error .overflow := by
  decide

/-- **C3 (amended).** At the loop-head iteration-cap exit (and at the
vanishing-derivative and vanishing-secant-slope exits), `newton_raphson`,
`secant`, and `brent` return `Ok` with `converged = false`, the current
estimate as root, and the function value at that estimate as residual —
unconditionally.  `bisection` does so too provided its post-loop midpoint
arithmetic and the function evaluation at the midpoint succeed. -/
theorem solvers_cap_exit_ok :
    (∀ f df tol max fuel x iters fx,
        f x = .ok fx → Dec.blt fx.abs tol = false → max ≤ iters →
        newtonGo f df tol max (fuel + 1) x iters = .ok ⟨x, iters, fx, false⟩) ∧
    (∀ f df tol max fuel x iters fx dfx,
        f x = .ok fx → Dec.blt fx.abs tol = false → iters < max →
        df x = .ok dfx → Dec.blt dfx.abs ⟨1, 20⟩ = true →
        newtonGo f df tol max (fuel + 1) x iters = .ok ⟨x, iters, fx, false⟩) ∧
    (∀ f tol max fuel x0 x1 f0 f1 iters, ¬ iters < max →
        secantGo f tol max fuel x0 x1 f0 f1 iters
          = .ok ⟨x1, iters, f1, false⟩) ∧
    (∀ f tol max fuel x0 x1 f0 f1 iters df, iters < max →
        Dec.blt f1.abs tol = false → Dec.checked_sub f1 f0 = some df →
        Dec.blt df.abs ⟨1, 20⟩ = true →
        secantGo f tol max (fuel + 1) x0 x1 f0 f1 iters
          = .ok ⟨x1, iters, f1, false⟩) ∧
    (∀ f tol max fuel a b c d e fa fb fc iters, ¬ iters < max →
        brentGo f tol max fuel a b c d e fa fb fc iters
          = .ok ⟨b, iters, fb, false⟩) ∧
    (∀ f tol max fuel a b fa iters s mid fmid, ¬ iters < max →
        Dec.checked_add a b = some s →
        Dec.checked_div s (Dec.ofInt 2) = some mid →
        f mid = .ok fmid →
        bisectGo f tol max fuel a b fa iters
          = .ok ⟨mid, iters, fmid, false⟩) := by
  refine ⟨?_, ?_, ?_, ?_, ?_, ?_⟩
  · intro f df tol max fuel x iters fx h1 h2 h3
    simp only [newtonGo, h1, except_bind_ok]
    rw [if_neg (by simp [h2]), if_pos h3]
  · intro f df tol max fuel x iters fx dfx h1 h2 h3 h4 h5
    simp only [newtonGo, h1, h4, except_bind_ok]
    rw [if_neg (by simp [h2]), if_neg (by omega), if_pos h5]
  · intro f tol max fuel x0 x1 f0 f1 iters h
    cases fuel with
    | zero => simp [secantGo]
    | succ fuel => simp only [secantGo]; rw [if_neg h]
  · intro f tol max fuel x0 x1 f0 f1 iters df h1 h2 h3 h4
    simp only [secantGo, try_sub_eq_ok h3, except_bind_ok]
    rw [if_pos h1, if_neg (by simp [h2]), if_pos h4]
  · intro f tol max fuel a b c d e fa fb fc iters h
    cases fuel with
    | zero => simp [brentGo]
    | succ fuel => simp only [brentGo]; rw [if_neg h]
  · intro f tol max fuel a b fa iters s mid fmid h h1 h2 h3
    have hend : bisectEnding f a b iters = .ok ⟨mid, iters, fmid, false⟩ := by
      simp only [bisectEnding, try_add_eq_ok h1,
        try_div_eq_ok (show (Dec.ofInt 2).is_zero = false by decide) h2, h3,
        except_bind_ok]
    cases fuel with
    | zero => simp only [bisectGo]; exact hend
    | succ fuel => simp only [bisectGo]; rw [if_neg h]; exact hend

/-- **C3 witness.** The secant cap-exit conjunct applied concretely: with a
cap of `0` iterations the loop exits immediately with `converged = false`,
the second guess as root and its stored residual. -/
theorem solvers_cap_exit_ok_witness :
    secantGo (fun _ => .ok ⟨1, 0⟩) ⟨1, 12⟩ 0 0 ⟨0, 0⟩ ⟨1, 0⟩ ⟨-1, 0⟩ ⟨1, 0⟩ 0
      = .ok ⟨⟨1, 0⟩, 0, ⟨1, 0⟩, false⟩ :=
  solvers_cap_exit_ok.2.2.1 (fun _ => .ok ⟨1, 0⟩) ⟨1, 12⟩ 0 0
    ⟨0, 0⟩ ⟨1, 0⟩ ⟨-1, 0⟩ ⟨1, 0⟩ 0 (by omega)

/-! ## Claim C1: totality of exp -/

/-- **C1.** The claim is right and the code is wrong: `exp` guards only
`|x| ≤ 100`, but the decimal range ends near `e^66.5`.  At `x = 70` — inside
the guard, as the second and third conjuncts record — the underlying
exponential overflows and panics instead of returning a value (`e^70`
exceeds every representable decimal, as the final real-analysis conjunct
shows, so no faithful implementation can return `Some` here).  The guard
itself behaves as documented at `±101`. -/
theorem exp_panics_inside_guard :
    Dec.exp (Dec.ofInt 70) = .panicked ∧
    Dec.blt (Dec.ofInt 100) (Dec.ofInt 70) = false ∧
    Dec.blt (Dec.ofInt 70) (Dec.ofInt (-100)) = false ∧
    Dec.exp (Dec.ofInt 101) = .value none ∧
    Dec.exp (Dec.ofInt (-101)) = .value (some Dec.zero) ∧
    ((2 : ℝ) ^ 96 - 1) < Real.exp 70 := by
  refine ⟨by decide, by decide, by decide, by decide, by decide, ?_⟩
  have h27 : ((27 : ℝ) / 10) ≤ Real.exp 1 :=
    le_of_lt (lt_trans (by norm_num) Real.exp_one_gt_d9)
  calc ((2 : ℝ) ^ 96 - 1) < ((27 : ℝ) / 10) ^ (70 : ℕ) := by norm_num
    _ ≤ (Real.exp 1) ^ (70 : ℕ) := pow_le_pow_left₀ (by norm_num) h27 70
    _ = Real.exp 70 := by rw [← Real.exp_nat_mul]; norm_num

/-! ## Sign lemmas for the exponential kernel (used for the parity claim) -/

theorem roundAtPow_nonneg {m : ℤ} (k : ℕ) (mode : RoundingMode) (h : 0 ≤ m) :
    0 ≤ Dec.roundAtPow m k mode := by
  unfold Dec.roundAtPow
  rw [if_neg (not_lt.mpr h)]
  exact Int.natCast_nonneg _

theorem mulFit_nonneg :
    ∀ (s : ℕ) (m : ℤ) (d : Dec), 0 ≤ m → Dec.mulFit m s = some d →
      0 ≤ d.man := by
  intro s
  induction s with
  | zero =>
      intro m d hm h
      unfold Dec.mulFit at h
      split at h
      · injection h with h; subst h; exact hm
      · exact Option.noConfusion h
  | succ s ih =>
      intro m d hm h
      unfold Dec.mulFit at h
      split at h
      · injection h with h; subst h; exact hm
      · exact ih _ d (roundAtPow_nonneg 1 .halfEven hm) h

theorem checked_add_nonneg {a b c : Dec} (ha : 0 ≤ a.man) (hb : 0 ≤ b.man)
    (h : Dec.checked_add a b = some c) : 0 ≤ c.man := by
  unfold Dec.checked_add at h
  exact mulFit_nonneg _ _ _ (by positivity) h

theorem checked_mul_nonneg {a b c : Dec} (ha : 0 ≤ a.man) (hb : 0 ≤ b.man)
    (h : Dec.checked_mul a b = some c) : 0 ≤ c.man := by
  unfold Dec.checked_mul at h
  refine mulFit_nonneg _ _ _ ?_ h
  have hmm : 0 ≤ a.man * b.man := mul_nonneg ha hb
  split
  · exact roundAtPow_nonneg _ _ hmm
  · exact hmm

theorem roundRatHE_nonneg {n d : ℤ} (hn : 0 ≤ n) (hd : 0 ≤ d) :
    0 ≤ Dec.roundRatHE n d := by
  unfold Dec.roundRatHE
  rw [if_neg (by simp [not_lt.mpr hn, not_lt.mpr hd])]
  exact Int.natCast_nonneg _

theorem divFit_nonneg :
    ∀ (t : ℕ) (num den : ℤ) (c : Dec), 0 ≤ num → 0 ≤ den →
      Dec.divFit num den t = some c → 0 ≤ c.man := by
  intro t
  induction t with
  | zero =>
      intro num den c hn hd h
      unfold Dec.divFit at h
      dsimp only at h
      split at h
      · injection h with h; subst h; exact roundRatHE_nonneg hn hd
      · exact Option.noConfusion h
  | succ t ih =>
      intro num den c hn hd h
      unfold Dec.divFit at h
      dsimp only at h
      split at h
      · injection h with h; subst h
        exact roundRatHE_nonneg (by positivity) hd
      · exact ih num den c hn hd h

theorem checked_div_nonneg {a b c : Dec} (ha : 0 ≤ a.man) (hb : 0 ≤ b.man)
    (h : Dec.checked_div a b = some c) : 0 ≤ c.man := by
  unfold Dec.checked_div at h
  split at h
  · exact Option.noConfusion h
  · have hnum : (0 : ℤ) ≤ a.man * (10 : ℤ) ^ b.scale := by positivity
    have hden : (0 : ℤ) ≤ b.man * (10 : ℤ) ^ a.scale := by positivity
    dsimp only at h
    split at h
    · split at h
      · injection h with h; subst h
        exact Int.ediv_nonneg (by positivity) hden
      · exact Option.noConfusion h
    · exact divFit_nonneg 28 _ _ c hnum hden h

theorem taylorExpGo_nonneg :
    ∀ (fuel : ℕ) (x sum term : Dec) (k : ℕ) (v : Dec),
      0 ≤ x.man → 0 ≤ sum.man → 0 ≤ term.man →
      Dec.taylorExpGo x fuel sum term k = some v → 0 ≤ v.man := by
  intro fuel
  induction fuel with
  | zero =>
      intro x sum term k v _ hs _ h
      unfold Dec.taylorExpGo at h
      injection h with h; subst h; exact hs
  | succ fuel ih =>
      intro x sum term k v hx hs ht h
      rw [Dec.taylorExpGo] at h
      rcases h1 : term.checked_mul x with _ | t1 <;> rw [h1] at h
      · rw [option_bind_none] at h
        exact Option.noConfusion h
      rw [option_bind_some] at h
      have ht1 : 0 ≤ t1.man := checked_mul_nonneg ht hx h1
      rcases h2 : t1.checked_div (Dec.ofInt k) with _ | term2 <;> rw [h2] at h
      · rw [option_bind_none] at h
        exact Option.noConfusion h
      rw [option_bind_some] at h
      have ht2 : 0 ≤ term2.man :=
        checked_div_nonneg ht1 (Int.natCast_nonneg k) h2
      split at h
      · exact checked_add_nonneg hs ht2 h
      · rcases h3 : Dec.checked_add sum term2 with _ | sum2 <;> rw [h3] at h
        · rw [option_bind_none] at h
          exact Option.noConfusion h
        · rw [option_bind_some] at h
          exact ih x sum2 term2 (k + 1) v hx
            (checked_add_nonneg hs ht2 h3) ht2 h

theorem squareN_nonneg :
    ∀ (n : ℕ) (v w : Dec), 0 ≤ v.man → Dec.squareN n v = some w →
      0 ≤ w.man := by
  intro n
  induction n with
  | zero =>
      intro v w hv h
      unfold Dec.squareN at h
      injection h with h; subst h; exact hv
  | succ n ih =>
      intro v w hv h
      rw [Dec.squareN] at h
      rcases h1 : v.checked_mul v with _ | v2 <;> rw [h1] at h
      · rw [option_bind_none] at h
        exact Option.noConfusion h
      · rw [option_bind_some] at h
        exact ih v2 w (checked_mul_nonneg hv hv h1) h

theorem innerExpPos_nonneg {x v : Dec} (hx : 0 ≤ x.man)
    (h : Dec.innerExpPos x = some v) : 0 ≤ v.man := by
  unfold Dec.innerExpPos at h
  dsimp only at h
  rcases h1 : x.checked_div (Dec.ofInt (2 ^ Dec.reduceN x 100 0)) with _ | y <;>
    rw [h1] at h
  · rw [option_bind_none] at h
    exact Option.noConfusion h
  rw [option_bind_some] at h
  have hy : 0 ≤ y.man :=
    checked_div_nonneg hx (by simp only [Dec.ofInt]; positivity) h1
  rcases h2 : Dec.taylorExpGo y 80 ⟨1, 0⟩ ⟨1, 0⟩ 1 with _ | t <;> rw [h2] at h
  · rw [option_bind_none] at h
    exact Option.noConfusion h
  · rw [option_bind_some] at h
    exact squareN_nonneg _ t v
      (taylorExpGo_nonneg 80 y ⟨1, 0⟩ ⟨1, 0⟩ 1 t hy (by norm_num) (by norm_num) h2) h

theorem innerExp_nonneg {x v : Dec} (h : Dec.innerExp x = some v) :
    0 ≤ v.man := by
  unfold Dec.innerExp at h
  split at h
  · injection h with h; subst h; norm_num
  · split at h
    · rcases h1 : Dec.innerExpPos x.abs with _ | w <;> rw [h1] at h
      · rw [option_bind_none] at h
        exact Option.noConfusion h
      · rw [option_bind_some] at h
        have hw : 0 ≤ w.man := innerExpPos_nonneg (abs_nonneg x.man) h1
        exact checked_div_nonneg (by norm_num [Dec.one]) hw h
    · rename_i hneg
      have hx : 0 ≤ x.man := by
        unfold Dec.is_negative at hneg
        simpa using not_lt.mp (by simpa using hneg)
      exact innerExpPos_nonneg hx h

theorem exp_value_nonneg {x v : Dec} (h : Dec.exp x = .value (some v)) :
    0 ≤ v.man := by
  unfold Dec.exp at h
  split at h
  · injection h with h
    exact Option.noConfusion h
  split at h
  · injection h with h
    injection h with h
    subst h
    norm_num [Dec.zero]
  split at h
  · rename_i w hw
    injection h with h
    injection h with h
    subst h
    exact innerExp_nonneg hw
  · exact RustVal.noConfusion h

/-! ## Claim C5: pow special cases -/

theorem is_zero_false_of_neg_man {d : Dec} (h : d.man < 0) :
    d.is_zero = false := by
  unfold Dec.is_zero
  exact beq_eq_false_iff_ne.mpr (by omega)

theorem is_zero_false_of_pos_man {d : Dec} (h : 0 < d.man) :
    d.is_zero = false := by
  unfold Dec.is_zero
  exact beq_eq_false_iff_ne.mpr (by omega)

theorem man_neg_of_is_negative {d : Dec} (h : d.is_negative = true) :
    d.man < 0 := by
  unfold Dec.is_negative at h
  exact of_decide_eq_true h

theorem man_pos_of_is_positive {d : Dec} (h : d.is_positive = true) :
    0 < d.man := by
  unfold Dec.is_positive at h
  exact of_decide_eq_true h

theorem beq_one_pos {b : Dec} (h : Dec.beq b ⟨1, 0⟩ = true) : 0 < b.man := by
  unfold Dec.beq at h
  rw [beq_iff_eq] at h
  simp only [pow_zero, mul_one, one_mul] at h
  rw [h]
  positivity

theorem beq_one_false_of_negative {b : Dec} (h : b.is_negative = true) :
    Dec.beq b ⟨1, 0⟩ = false := by
  cases hb : Dec.beq b ⟨1, 0⟩ with
  | false => rfl
  | true => exact absurd (beq_one_pos hb) (by have := man_neg_of_is_negative h; omega)

theorem is_positive_false_of_negative {d : Dec} (h : d.is_negative = true) :
    d.is_positive = false := by
  unfold Dec.is_positive
  have := man_neg_of_is_negative h
  exact decide_eq_false (by omega)

theorem floor_beq_self_of_zero {e : Dec} (h : e.is_zero = true) :
    Dec.beq e.floor e = true := by
  have hm : e.man = 0 := by
    unfold Dec.is_zero at h
    exact beq_iff_eq.mp h
  unfold Dec.floor Dec.round
  split
  · unfold Dec.beq
    rw [beq_iff_eq]
  · unfold Dec.beq
    rw [beq_iff_eq]
    simp [Dec.roundAtPow, Dec.roundMag, hm]

/-- **C5 counterexample.** `pow` has no shortcut for exponent `1`: `2^1` is
computed as `exp(ln 2)`, whose value in the kernel is not exactly `2` (its
last digits carry the series-termination noise), so `base^1 = base exactly`
fails. -/
theorem pow_exponent_one_counterexample :
    Dec.pow ⟨2, 0⟩ ⟨1, 0⟩
        = .value (some ⟨20000000000000000000003188986, 28⟩) ∧
      (⟨20000000000000000000003188986, 28⟩ : Dec).val ≠ (⟨2, 0⟩ : Dec).val := by
  refine ⟨by decide, ?_⟩
  unfold Dec.val
  norm_num

/-- **C5 (amended).** The special cases of `pow` except exponent-one
exactness: `base^0 = 1` (hence `0^0 = 1`), `0^positive = 0`,
`0^negative` fails, `1^anything = 1` (numeric equality with one), a
negative base with a non-integer exponent is rejected, and for a negative
base with an integer exponent the returned value's sign follows the
exponent's parity; `base^1` is only approximately `base`. -/
theorem pow_special_cases :
    (∀ b e : Dec, e.is_zero = true → Dec.pow b e = .value (some ⟨1, 0⟩)) ∧
    (∀ b e : Dec, b.is_zero = true → e.is_positive = true →
        Dec.pow b e = .value (some ⟨0, 0⟩)) ∧
    (∀ b e : Dec, b.is_zero = true → e.is_negative = true →
        Dec.pow b e = .value none) ∧
    (∀ b e : Dec, Dec.beq b ⟨1, 0⟩ = true →
        Dec.pow b e = .value (some ⟨1, 0⟩)) ∧
    (∀ b e : Dec, b.is_negative = true → Dec.beq e.floor e = false →
        Dec.pow b e = .value none) ∧
    (∀ b e r : Dec, b.is_negative = true → e.is_zero = false →
        Dec.pow b e = .value (some r) →
        (Dec.is_odd_exponent e = true → r.man ≤ 0) ∧
        (Dec.is_odd_exponent e = false → 0 ≤ r.man)) := by
  refine ⟨?_, ?_, ?_, ?_, ?_, ?_⟩
  · intro b e he
    unfold Dec.pow
    rw [if_pos he]
  · intro b e hb he
    have hez : e.is_zero = false :=
      is_zero_false_of_pos_man (man_pos_of_is_positive he)
    unfold Dec.pow
    rw [if_neg (by simp [hez]), if_pos hb, if_pos he]
  · intro b e hb he
    have hez : e.is_zero = false :=
      is_zero_false_of_neg_man (man_neg_of_is_negative he)
    unfold Dec.pow
    rw [if_neg (by simp [hez]), if_pos hb,
      if_neg (by simp [is_positive_false_of_negative he])]
  · intro b e hbe
    have hb0 : b.is_zero = false := is_zero_false_of_pos_man (beq_one_pos hbe)
    by_cases hez : e.is_zero = true
    · unfold Dec.pow
      rw [if_pos hez]
    · unfold Dec.pow
      rw [if_neg hez, if_neg (by simp [hb0]), if_pos hbe]
  · intro b e hb hfl
    have hez : e.is_zero = false := by
      cases hz : e.is_zero with
      | false => rfl
      | true => exact absurd (floor_beq_self_of_zero hz) (by simp [hfl])
    have hb0 : b.is_zero = false :=
      is_zero_false_of_neg_man (man_neg_of_is_negative hb)
    have hb1 : Dec.beq b ⟨1, 0⟩ = false := beq_one_false_of_negative hb
    unfold Dec.pow
    rw [if_neg (by simp [hez]), if_neg (by simp [hb0]),
      if_neg (by simp [hb1]), if_pos hb,
      if_pos (show (!(Dec.beq e.floor e)) = true by rw [hfl]; rfl)]
  · intro b e r hb hez h
    have hb0 : b.is_zero = false :=
      is_zero_false_of_neg_man (man_neg_of_is_negative hb)
    have hb1 : Dec.beq b ⟨1, 0⟩ = false := beq_one_false_of_negative hb
    unfold Dec.pow at h
    rw [if_neg (by simp [hez]), if_neg (by simp [hb0]),
      if_neg (by simp [hb1]), if_pos hb] at h
    by_cases hfl : Dec.beq e.floor e = true
    · rw [if_neg (by simp [hfl])] at h
      rcases hln : b.abs.ln with _ | lnb <;> rw [hln] at h <;> (try dsimp only at h)
      · injection h with h
        exact Option.noConfusion h
      rcases hmul : lnb.checked_mul e with _ | prod <;> rw [hmul] at h <;>
        (try dsimp only at h)
      · injection h with h
        exact Option.noConfusion h
      rcases hexp : Dec.exp prod with _ | o <;> rw [hexp] at h <;>
        (try dsimp only at h)
      · exact RustVal.noConfusion h
      rcases o with _ | er <;> (try dsimp only at h)
      · injection h with h
        exact Option.noConfusion h
      · injection h with h
        injection h with h
        subst h
        have her : 0 ≤ er.man := exp_value_nonneg hexp
        constructor
        · intro ho
          rw [if_pos ho]
          simp only [Dec.neg]
          omega
        · intro ho
          rw [if_neg (by simp [ho])]
          exact her
    · have hfl' : Dec.beq e.floor e = false := by
        cases hq : Dec.beq e.floor e with
        | false => rfl
        | true => exact absurd hq hfl
      rw [if_pos (show (!(Dec.beq e.floor e)) = true by rw [hfl']; rfl)] at h
      injection h with h
      exact Option.noConfusion h

/-- **C5 witness.** The zero-exponent conjunct applied at `5^0 = 1`. -/
theorem pow_special_cases_witness :
    Dec.pow ⟨5, 0⟩ ⟨0, 0⟩ = .value (some ⟨1, 0⟩) :=
  pow_special_cases.1 ⟨5, 0⟩ ⟨0, 0⟩ (by decide)

/-! ## Claim C10: implied volatility stays in the clamp range -/

theorem ble_iff {a b : Dec} : Dec.ble a b = true ↔ a.val ≤ b.val := by
  unfold Dec.ble Dec.val
  rw [decide_eq_true_eq, div_le_div_iff₀ (by positivity) (by positivity)]
  constructor
  · intro h; exact_mod_cast h
  · intro h; exact_mod_cast h

theorem clampVol_bounds (x : Dec) :
    (1 : ℚ) / 100 ≤ (clampVol x).val ∧ (clampVol x).val ≤ 5 := by
  have hmin : (minVol).val = 1 / 100 := by unfold minVol Dec.val; norm_num
  have hmax : (maxVol).val = 5 := by unfold maxVol Dec.val; norm_num
  unfold clampVol Dec.dmin Dec.dmax
  split_ifs with h1 h2 h3
  all_goals
    first
      | (rw [hmax]; norm_num)
      | (rw [hmin]; norm_num)
      | (rw [ble_iff, hmin] at h1; rw [ble_iff, hmax] at h2; exact ⟨h1, h2⟩)

theorem ivGo_ok_clamped :
    ∀ (n : ℕ) (mp : Dec) (params : OptionParams) (ic : Bool) (tol σ r : Dec),
      (1 : ℚ) / 100 ≤ σ.val → σ.val ≤ 5 →
      ivGo mp params ic tol n σ = .ok r →
      (1 : ℚ) / 100 ≤ r.val ∧ r.val ≤ 5 := by
  intro n
  induction n with
  | zero =>
      intro mp params ic tol σ r h1 h2 h
      simp only [ivGo] at h
      injection h with h
      subst h
      exact ⟨h1, h2⟩
  | succ n ih =>
      intro mp params ic tol σ r h1 h2 h
      rw [ivGo] at h
      repeat' split at h
      all_goals
        first
          | exact Except.noConfusion h
          | (injection h with h; subst h; exact ⟨h1, h2⟩)
          | exact ih mp params ic tol _ r (clampVol_bounds _).1
              (clampVol_bounds _).2 h

/-- **C10.** Whenever `implied_volatility` returns `Ok(sigma)` — at
convergence, on vega collapse, or at the iteration cap — the returned
volatility lies in the clamp range `[0.01, 5.0]`, for every market price,
parameter set, iteration cap and tolerance. -/
theorem implied_volatility_clamped :
    ∀ (mp : Dec) (params : OptionParams) (is_call : Bool)
      (maxI : Option ℕ) (tol : Option Dec) (σ : Dec),
      implied_volatility mp params is_call maxI tol = .ok σ →
      (1 : ℚ) / 100 ≤ σ.val ∧ σ.val ≤ 5 := by
  intro mp params is_call maxI tol σ h
  unfold implied_volatility at h
  rcases h1 : Dec.try_mul Dec.pi ⟨2, 0⟩ with e | two_pi <;> rw [h1] at h
  · exact Except.noConfusion h
  rcases h2 : two_pi.try_div params.time with e | tp <;>
    rw [except_bind_ok, h2] at h
  · exact Except.noConfusion h
  rcases h3 : tp.try_sqrt with e | root <;> rw [except_bind_ok, h3] at h
  · exact Except.noConfusion h
  rcases h4 : mp.try_div params.spot with e | ratio <;>
    rw [except_bind_ok, h4] at h
  · exact Except.noConfusion h
  rcases h5 : root.try_mul ratio with e | sigma <;>
    rw [except_bind_ok, h5] at h
  · exact Except.noConfusion h
  rw [except_bind_ok] at h
  exact ivGo_ok_clamped _ mp params is_call _ _ σ
    (clampVol_bounds sigma).1 (clampVol_bounds sigma).2 h

/-- **C10 witness.** A concrete run with a zero iteration cap: the clamped
Brenner–Subrahmanyam seed for `market = 10, S = K = 100, T = 1` is
returned and lies in `[0.01, 5]`. -/
theorem implied_volatility_clamped_witness :
    (1 : ℚ) / 100 ≤ (⟨2506628274631000502415765285, 28⟩ : Dec).val ∧
      (⟨2506628274631000502415765285, 28⟩ : Dec).val ≤ 5 :=
  implied_volatility_clamped ⟨10, 0⟩
    ⟨⟨100, 0⟩, ⟨100, 0⟩, ⟨0, 0⟩, ⟨1, 0⟩, ⟨2, 1⟩⟩ true (some 0) none
    ⟨2506628274631000502415765285, 28⟩ (by decide)

/-- **C9 witness.** The mantissa-extraction conjunct applied at input `2`
(scaled product `2·10^18`, which fits): the adapter returns `2·10^18`. -/
theorem decimal_to_u256_total_saturating_witness :
    decimal_to_u256 ⟨2, 0⟩
      = ((⟨2000000000000000000, 0⟩ : Dec).round 0 .towardZero).man.natAbs :=
  decimal_to_u256_total_saturating.1 ⟨2, 0⟩ ⟨2000000000000000000, 0⟩ (by decide)

end Keystone
